import Mathlib

/-! # Import manager of the Go backend

A shallow embedding of `generator/golang/imports.go`: the import manager
(`importManager`), which decides which packages a generated Go file imports and
under which alias, and the identifier redirector (`idHijack`), which substitutes
the keys of imports through a replacement table before they reach the namespace.

Go strings are Lean strings, Go maps with string keys are association lists
(`GoMap`), and a method that mutates its receiver returns the updated receiver.
-/

namespace Golang

/-! ## Go maps and strings -/

/-- A Go `map[string]β` as an association list; at most the first pair of a key is
ever read, and `GoMap.store` never creates a second pair for a key. -/
abbrev GoMap (β : Type) := List (String × β)

/-- The Go expression `v, ok := m[k]`: `some v` when the key is present. -/
def GoMap.lookup {β : Type} (m : GoMap β) (k : String) : Option β :=
  List.lookup k m

/-- The Go statement `m[k] = v`: overwrite the pair of `k` or append a new one. -/
def GoMap.store {β : Type} : GoMap β → String → β → GoMap β
  | [], k, v => [(k, v)]
  | (k', v') :: t, k, v => if k' = k then (k, v) :: t else (k', v') :: GoMap.store t k v

/-- The Go statement `delete(m, k)`. -/
def GoMap.delete {β : Type} (m : GoMap β) (k : String) : GoMap β :=
  m.filter (fun e => e.1 != k)

/-- The Go expression `m[k]` on a `map[string]bool`: `false` when the key is absent. -/
def GoMap.flag (m : GoMap Bool) (k : String) : Bool :=
  (GoMap.lookup m k).getD false

/-- Go's `strings.HasSuffix(s, suffix)`:
`len(s) >= len(suffix) && s[len(s)-len(suffix):] == suffix`. -/
def strings.HasSuffix (s suffix : String) : Bool :=
  decide (suffix.data.length ≤ s.data.length) &&
    (s.data.drop (s.data.length - suffix.data.length) == suffix.data)

/-- The final `/`-separated segment of a list of characters: what follows the last
`/`, the whole list when there is none. -/
def lastSegmentChars : List Char → List Char
  | [] => []
  | c :: t => if '/' ∈ t then lastSegmentChars t else if c = '/' then t else c :: t

/-- The final `/`-separated segment of an import path. -/
def lastSegment (path : String) : String :=
  String.mk (lastSegmentChars path.data)

/-! ## The namespace interface -/

/-- The interface `namespace.Namespace` as the import manager uses it: the method
table of an implementation whose state has type `σ`. `Add` and `Reserve` return
their result with the updated state, `MustReserve` returns `none` when it panics,
and `pairs` lists the `(name, id)` pairs that `Iterate` hands to its callback. -/
structure Namespace (σ : Type) where
  Add : σ → String → String → String × σ
  Get : σ → String → String
  Reserve : σ → String → String → Bool × σ
  MustReserve : σ → String → String → Option σ
  pairs : σ → List (String × String)

/-- Run a callback over `(name, id)` pairs until it answers `false`. -/
def iteratePairs {α : Type} : List (String × String) → (String → String → α → α × Bool) → α → α
  | [], _, a => a
  | (name, id) :: t, f, a =>
    match f name id a with
    | (a', true) => iteratePairs t f a'
    | (a', false) => a'

/-- The method `Iterate(func(name, id string) bool)` of the interface, with the
state the callback accumulates made explicit. -/
def Namespace.Iterate {σ α : Type} (N : Golang.Namespace σ) (s : σ)
    (f : String → String → α → α × Bool) (a : α) : α :=
  iteratePairs (N.pairs s) f a

/-! ## The identifier redirector -/

/-- The struct `idHijack`: a wrapped namespace and the replacement table. -/
structure idHijack (σ : Type) where
  Namespace : σ
  replacement : GoMap String

/-- The method `idHijack.get`: the replacement of `id` when the table has one,
`id` itself otherwise. -/
def idHijack.get {σ : Type} (h : idHijack σ) (id : String) : String :=
  match GoMap.lookup h.replacement id with
  | some v => v
  | none => id

/-- The method `idHijack.Add`. -/
def idHijack.Add {σ : Type} (N : Golang.Namespace σ) (h : idHijack σ) (name id : String) :
    String × idHijack σ :=
  let r := N.Add h.Namespace name (h.get id)
  (r.1, { h with Namespace := r.2 })

/-- The method `idHijack.Get`. -/
def idHijack.Get {σ : Type} (N : Golang.Namespace σ) (h : idHijack σ) (id : String) : String :=
  N.Get h.Namespace (h.get id)

/-- The method `idHijack.Reserve`. -/
def idHijack.Reserve {σ : Type} (N : Golang.Namespace σ) (h : idHijack σ) (name id : String) :
    Bool × idHijack σ :=
  let r := N.Reserve h.Namespace name (h.get id)
  (r.1, { h with Namespace := r.2 })

/-- The method `idHijack.MustReserve`; `none` when the wrapped call panics. -/
def idHijack.MustReserve {σ : Type} (N : Golang.Namespace σ) (h : idHijack σ) (name id : String) :
    Option (idHijack σ) :=
  (N.MustReserve h.Namespace name (h.get id)).map (fun s => { h with Namespace := s })

/-- The method `Iterate` that `idHijack` inherits from the namespace it embeds. -/
def idHijack.Iterate {σ α : Type} (N : Golang.Namespace σ) (h : idHijack σ)
    (f : String → String → α → α × Bool) (a : α) : α :=
  N.Iterate h.Namespace f a

/-! ## The import manager -/

/-- The struct `importManager`: the embedded namespace (nil until `init` sets it
to an `idHijack`) and the set of libraries not yet confirmed as used. -/
structure importManager (σ : Type) where
  Namespace : Option (idHijack σ)
  libNotUsed : GoMap Bool

/-- The function `newImportManager`. -/
def newImportManager (σ : Type) : importManager σ :=
  { Namespace := none
    libNotUsed := [("strings", true), ("bytes", true), ("reflect", true)] }

/-- The callback that `ResolveImports` hands to `Iterate`. -/
def resolveStep (libNotUsed : GoMap Bool) (aliasName path : String) (imports : GoMap String) :
    GoMap String × Bool :=
  if GoMap.flag libNotUsed aliasName then
    (imports, true)
  else if aliasName = path ∨ strings.HasSuffix path ("/" ++ aliasName) = true then
    (GoMap.store imports path "", true)
  else
    (GoMap.store imports path aliasName, true)

/-- The method `importManager.ResolveImports`: the import map and the error, which
is always nil; `none` when the embedded namespace is nil and the call panics. -/
def importManager.ResolveImports {σ : Type} (N : Golang.Namespace σ) (im : importManager σ) :
    Option (GoMap String × Option String) :=
  match im.Namespace with
  | none => none
  | some h => some (idHijack.Iterate N h (resolveStep im.libNotUsed) [], none)

/-- The method `importManager.UseStdLibrary`. -/
def importManager.UseStdLibrary {σ : Type} (im : importManager σ) (lib : String) :
    importManager σ :=
  { im with libNotUsed := GoMap.delete im.libNotUsed lib }

/-! ## The namespace service -/

/-- Modelled from the spec: the Namespace Service that `namespace.NewNamespace`
creates (package `pkg/namespace` is not among the sources). It maps import keys to
assigned names: `ids` holds the `(key, name)` pairs in registration order, and
`rename` is the function given to `NewNamespace`, used to number a duplicate name. -/
structure NamespaceService where
  rename : String → Int → String
  ids : GoMap String

/-- Modelled from the spec: `namespace.NewNamespace(rename)`, the Namespace
Service with no registration yet. -/
def NewNamespace (rename : String → Int → String) : NamespaceService :=
  { rename := rename, ids := [] }

/-- Modelled from the spec: whether a name is already assigned to some key. -/
def NamespaceService.taken (s : NamespaceService) (name : String) : Bool :=
  s.ids.any (fun e => e.2 == name)

/-- Modelled from the spec: "numbering duplicates". The first candidate
`rename name cnt`, `rename name (cnt+1)`, ... that is not taken; the search is cut
after `fuel` taken candidates. -/
def NamespaceService.number (s : NamespaceService) (name : String) : Nat → Int → String
  | 0, cnt => s.rename name cnt
  | fuel + 1, cnt =>
    if s.taken (s.rename name cnt) then NamespaceService.number s name fuel (cnt + 1)
    else s.rename name cnt

/-- Modelled from the spec: the non-conflicting name allocated for a wanted name:
the name itself when it is free, a numbered duplicate otherwise. With as many
candidates as there are registrations plus one, the allocation always produces a
name. -/
def NamespaceService.assign (s : NamespaceService) (name : String) : String :=
  if s.taken name then NamespaceService.number s name s.ids.length 1 else name

/-- Modelled from the spec: `Add(name, key) -> assignedName`. A key that is
already registered keeps its assigned name ("the Namespace Service dedupes them
into one alias"); a new key is registered under a non-conflicting name. -/
def NamespaceService.Add (s : NamespaceService) (name id : String) : String × NamespaceService :=
  match GoMap.lookup s.ids id with
  | some res => (res, s)
  | none => (s.assign name, { s with ids := s.ids ++ [(id, s.assign name)] })

/-- Modelled from the spec: `Get(key) -> assignedName`; the empty string for a key
that is not registered. -/
def NamespaceService.Get (s : NamespaceService) (id : String) : String :=
  (GoMap.lookup s.ids id).getD ""

/-- Modelled from the spec: `Reserve(localName, key) -> bool`. The spec gives the
signature only; here a registered key answers whether it holds that name, and a
new key takes the name when it is free. -/
def NamespaceService.Reserve (s : NamespaceService) (name id : String) : Bool × NamespaceService :=
  match GoMap.lookup s.ids id with
  | some res => (res == name, s)
  | none =>
    if s.taken name then (false, s)
    else (true, { s with ids := s.ids ++ [(id, name)] })

/-- Modelled from the spec: `MustReserve(localName, key)`, which panics (`none`)
when `Reserve` answers `false`. -/
def NamespaceService.MustReserve (s : NamespaceService) (name id : String) :
    Option NamespaceService :=
  match NamespaceService.Reserve s name id with
  | (true, s') => some s'
  | (false, _) => none

/-- Modelled from the spec: the `(name, key)` pairs that `Iterate` visits, one per
registered key. -/
def NamespaceService.pairs (s : NamespaceService) : List (String × String) :=
  s.ids.map (fun e => (e.2, e.1))

/-- The Namespace Service as an implementation of the interface. -/
def NamespaceService.impl : Golang.Namespace NamespaceService :=
  { Add := NamespaceService.Add
    Get := NamespaceService.Get
    Reserve := NamespaceService.Reserve
    MustReserve := NamespaceService.MustReserve
    pairs := NamespaceService.pairs }

/-! ## The document and the generator options -/

/-- Modelled from the spec: a function of a service (`parser.Function`); only the
number of functions of a service matters here. -/
structure parser.Function where
  Name : String

/-- Modelled from the spec: a service declaration (`parser.Service`) with its base
service (`Extends`, empty when there is none) and its functions. -/
structure parser.Service where
  Extends : String
  Functions : List parser.Function

/-- Modelled from the spec: the document shape (`parser.Thrift`): the enums, the
struct-like declarations and the services, each declaration of the first two kinds
given by its name. -/
structure parser.Thrift where
  Enums : List String
  StructLikes : List String
  Services : List parser.Service

/-- Modelled from the spec: `ast.GetStructLikes()`, the struct-like declarations. -/
def parser.Thrift.GetStructLikes (ast : parser.Thrift) : List String :=
  ast.StructLikes

/-- Run a callback over services until it answers `false`. -/
def forEachWhile {α : Type} : List parser.Service → (parser.Service → α → α × Bool) → α → α
  | [], _, a => a
  | svc :: t, f, a =>
    match f svc a with
    | (a', true) => forEachWhile t f a'
    | (a', false) => a'

/-- Modelled from the spec: `ast.ForEachService(f)`, which hands each service of
the document to `f` until `f` answers `false`. -/
def parser.Thrift.ForEachService {α : Type} (ast : parser.Thrift)
    (f : parser.Service → α → α × Bool) (a : α) : α :=
  forEachWhile ast.Services f a

/-- Modelled from the spec: the feature flags that `init` reads. -/
structure Features where
  ScanValueForEnum : Bool
  DefinitionOnly : Bool
  KeepUnknownFields : Bool
  GenDeepEqual : Bool
  ValidateSet : Bool

/-- Modelled from the spec: the part of `CodeUtils` that `init` reads: the feature
flags and the replacement table `importReplace`. -/
structure CodeUtils where
  features : Features
  importReplace : GoMap String

/-- Modelled from the spec: the accessor `cu.Features()`. -/
def CodeUtils.Features (cu : CodeUtils) : Golang.Features :=
  cu.features

/-! ## Initialisation -/

/-- The renaming function that `init` gives to `NewNamespace`:
`fmt.Sprintf("%s%d", name, cnt-1)`. -/
def zeroIndexRename (name : String) (cnt : Int) : String :=
  name ++ toString (cnt - 1)

/-- One `ns.Add(name, id)` statement of `init`, whose result is dropped. -/
def addImport (ns : idHijack NamespaceService) (name id : String) : idHijack NamespaceService :=
  (idHijack.Add NamespaceService.impl ns name id).2

/-- The body of the loop of `init` over the services. -/
def initService (ns : idHijack NamespaceService) (svc : parser.Service) :
    idHijack NamespaceService :=
  let ns := if svc.Extends = "" ∨ svc.Functions.length > 0 then addImport ns "context" "context" else ns
  if svc.Functions.length > 0 then addImport ns "fmt" "fmt" else ns

/-- The method `importManager.init`. The constants `DefaultThriftLib` and
`DefaultUnknownLib` are declared outside this file and are parameters here. -/
def importManager.init (DefaultThriftLib DefaultUnknownLib : String)
    (im : importManager NamespaceService) (cu : CodeUtils) (ast : parser.Thrift) :
    importManager NamespaceService :=
  let ns : idHijack NamespaceService :=
    { Namespace := NewNamespace zeroIndexRename, replacement := cu.importReplace }
  let ns :=
    if ast.Enums.length > 0 then
      let ns := addImport ns "fmt" "fmt"
      if cu.Features.ScanValueForEnum then
        addImport (addImport ns "driver" "database/sql/driver") "sql" "database/sql"
      else ns
    else ns
  let ns :=
    if ast.GetStructLikes.length > 0 then
      let ns := addImport ns "fmt" "fmt"
      if !cu.features.DefinitionOnly then addImport ns "thrift" DefaultThriftLib else ns
    else ns
  let ns :=
    if ast.Services.length > 0 then
      let ns := if !cu.features.DefinitionOnly then addImport ns "thrift" DefaultThriftLib else ns
      ast.Services.foldl initService ns
    else ns
  let structCount : Int := ast.GetStructLikes.length
  let structCount :=
    ast.ForEachService (fun svc n => (n + (svc.Functions.length : Int), true)) structCount
  let ns :=
    if structCount > 0 ∧ cu.Features.KeepUnknownFields = true then
      addImport ns "unknown" DefaultUnknownLib
    else ns
  let ns :=
    if cu.Features.GenDeepEqual then
      addImport (addImport ns "strings" "strings") "bytes" "bytes"
    else if cu.Features.ValidateSet then
      addImport ns "reflect" "reflect"
    else ns
  { im with Namespace := some ns }

/-- A sequence of `UseStdLibrary` calls, one per element of `libs`, in order. -/
def useAll {σ : Type} (im : importManager σ) (libs : List String) : importManager σ :=
  libs.foldl importManager.UseStdLibrary im

/-! ## Auxiliary notions for the properties -/

/-- The ids that `Iterate` visits are pairwise distinct, as the keys of a map are. -/
def Namespace.DistinctIds {σ : Type} (N : Golang.Namespace σ) (s : σ) : Prop :=
  ((N.pairs s).map Prod.snd).Nodup

/-- The value that `ResolveImports` stores for an entry `(aliasName, path)` that it
does not skip. -/
def emittedAlias (aliasName path : String) : String :=
  if aliasName = path ∨ strings.HasSuffix path ("/" ++ aliasName) = true then "" else aliasName

/-- The key that a redirector with replacement table `r` hands to the wrapped
namespace for `id`: `idHijack.get` of any redirector with that table. -/
def redirect (r : GoMap String) (id : String) : String :=
  idHijack.get { Namespace := (), replacement := r } id

/-- The `ns.Add(name, id)` calls of `init` for the enums, as `(name, id)` in order. -/
def enumCalls (cu : CodeUtils) (ast : parser.Thrift) : List (String × String) :=
  if ast.Enums.length > 0 then
    ("fmt", "fmt") ::
      (if cu.Features.ScanValueForEnum then
        [("driver", "database/sql/driver"), ("sql", "database/sql")]
      else [])
  else []

/-- The `ns.Add` calls of `init` for the struct-likes. -/
def structCalls (DefaultThriftLib : String) (cu : CodeUtils) (ast : parser.Thrift) :
    List (String × String) :=
  if ast.GetStructLikes.length > 0 then
    ("fmt", "fmt") :: (if !cu.features.DefinitionOnly then [("thrift", DefaultThriftLib)] else [])
  else []

/-- The `ns.Add` calls of one round of the loop of `init` over the services. -/
def serviceCalls (svc : parser.Service) : List (String × String) :=
  (if svc.Extends = "" ∨ svc.Functions.length > 0 then [("context", "context")] else [])
    ++ (if svc.Functions.length > 0 then [("fmt", "fmt")] else [])

/-- The `ns.Add` calls of `init` for the services. -/
def servicesCalls (DefaultThriftLib : String) (cu : CodeUtils) (ast : parser.Thrift) :
    List (String × String) :=
  if ast.Services.length > 0 then
    (if !cu.features.DefinitionOnly then [("thrift", DefaultThriftLib)] else [])
      ++ ast.Services.flatMap serviceCalls
  else []

/-- The value of `structCount` in `init`: the number of struct-likes plus the
number of functions of every service. -/
def structCount (ast : parser.Thrift) : Int :=
  ast.ForEachService (fun svc n => (n + (svc.Functions.length : Int), true))
    (ast.GetStructLikes.length : Int)

/-- The `ns.Add` call of `init` for the unknown-fields library. -/
def unknownCalls (DefaultUnknownLib : String) (cu : CodeUtils) (ast : parser.Thrift) :
    List (String × String) :=
  if structCount ast > 0 ∧ cu.Features.KeepUnknownFields = true then
    [("unknown", DefaultUnknownLib)]
  else []

/-- The `ns.Add` calls of `init` that depend on the shape of the document: all
calls but those of the three libraries that start as not used. -/
def shapeCalls (DefaultThriftLib DefaultUnknownLib : String) (cu : CodeUtils)
    (ast : parser.Thrift) : List (String × String) :=
  enumCalls cu ast ++ structCalls DefaultThriftLib cu ast
    ++ servicesCalls DefaultThriftLib cu ast ++ unknownCalls DefaultUnknownLib cu ast

/-- The last `ns.Add` calls of `init`: the libraries whose use is confirmed later. -/
def tentativeCalls (cu : CodeUtils) : List (String × String) :=
  if cu.Features.GenDeepEqual then [("strings", "strings"), ("bytes", "bytes")]
  else if cu.Features.ValidateSet then [("reflect", "reflect")]
  else []

/-- All `ns.Add` calls of `init`, in order. -/
def initCalls (DefaultThriftLib DefaultUnknownLib : String) (cu : CodeUtils)
    (ast : parser.Thrift) : List (String × String) :=
  shapeCalls DefaultThriftLib DefaultUnknownLib cu ast ++ tentativeCalls cu

/-- Every `(name, id)` pair that some `ns.Add` call of `init` can have. -/
def allCalls (DefaultThriftLib DefaultUnknownLib : String) : List (String × String) :=
  [("fmt", "fmt"), ("driver", "database/sql/driver"), ("sql", "database/sql"),
   ("thrift", DefaultThriftLib), ("context", "context"), ("unknown", DefaultUnknownLib),
   ("strings", "strings"), ("bytes", "bytes"), ("reflect", "reflect")]

/-- A call `(name, id)` as it reaches the wrapped namespace through a redirector
with replacement table `r`. -/
def redirectCall (r : GoMap String) (c : String × String) : String × String :=
  (c.1, redirect r c.2)

/-- What `Add` does to the registrations when the wanted name is free or the key is
already registered: a new key is appended with the wanted name. -/
def register (ids : GoMap String) (c : String × String) : GoMap String :=
  match GoMap.lookup ids c.2 with
  | some _ => ids
  | none => ids ++ [(c.2, c.1)]

/-- The registrations that the calls of `init` leave in the namespace when no name
is numbered: each redirected key with the name of the first call that has it. -/
def initIds (DefaultThriftLib DefaultUnknownLib : String) (cu : CodeUtils)
    (ast : parser.Thrift) : GoMap String :=
  ((initCalls DefaultThriftLib DefaultUnknownLib cu ast).map
    (redirectCall cu.importReplace)).foldl register []

/-- The names of the three libraries that a new manager holds as not used. -/
def tentativeNames : List String := ["strings", "bytes", "reflect"]

/-- The manager after `newImportManager`, `init` and then one `UseStdLibrary` call
for each element of `libs`. -/
def afterInit (DefaultThriftLib DefaultUnknownLib : String) (cu : CodeUtils)
    (ast : parser.Thrift) (libs : List String) : importManager NamespaceService :=
  useAll (importManager.init DefaultThriftLib DefaultUnknownLib
    (newImportManager NamespaceService) cu ast) libs

/-- The map that `ResolveImports` builds from the registrations `initIds` with the
libraries `libs` confirmed. -/
def initImports (DefaultThriftLib DefaultUnknownLib : String) (cu : CodeUtils)
    (ast : parser.Thrift) (libs : List String) : GoMap String :=
  iteratePairs
    (NamespaceService.pairs
      { rename := zeroIndexRename, ids := initIds DefaultThriftLib DefaultUnknownLib cu ast })
    (resolveStep (afterInit DefaultThriftLib DefaultUnknownLib cu ast libs).libNotUsed) []

/-- A value for the parameter `DefaultThriftLib` in the examples. -/
def sampleThriftLib : String := "github.com/apache/thrift/lib/go/thrift"

/-- A value for the parameter `DefaultUnknownLib` in the examples. -/
def sampleUnknownLib : String := "github.com/cloudwego/thriftgo/generator/golang/extension/unknown"

/-- Feature flags with only `GenDeepEqual` set. -/
def deepEqualOnly : Features :=
  { ScanValueForEnum := false, DefinitionOnly := false, KeepUnknownFields := false,
    GenDeepEqual := true, ValidateSet := false }

/-- A document with one struct-like and nothing else. -/
def oneStruct : parser.Thrift :=
  { Enums := [], StructLikes := ["Request"], Services := [] }

/-- A document with one enum and nothing else. -/
def oneEnum : parser.Thrift :=
  { Enums := ["Color"], StructLikes := [], Services := [] }

/-- A document with one service that has no base service and no function. -/
def oneBareService : parser.Thrift :=
  { Enums := [], StructLikes := [], Services := [{ Extends := "", Functions := [] }] }

/-- A replacement table that sends the key `"fmt"` to the path `"strings"`. -/
def fmtToStrings : GoMap String := [("fmt", "strings")]

/-- A replacement table with a chain: the thrift library is replaced by a fork, and
the fork's path by a mirror. -/
def chainedTable : GoMap String :=
  [(sampleThriftLib, "example.com/fork/thrift"),
   ("example.com/fork/thrift", "example.com/mirror/thrift")]

/-- A manager whose namespace is the redirector `h`, with the libraries of a new
manager not yet confirmed. -/
def managerOf {σ : Type} (h : idHijack σ) : importManager σ :=
  { Namespace := some h, libNotUsed := (newImportManager σ).libNotUsed }

/-- The redirector that the calls `ns.Add(name, id)` of `calls`, made in order on a
new namespace behind the replacement table `r`, leave. -/
def runCalls (r : GoMap String) (calls : List (String × String)) : idHijack NamespaceService :=
  calls.foldl (fun n c => addImport n c.1 c.2)
    { Namespace := NewNamespace zeroIndexRename, replacement := r }

/-- A document with one enum and one service that extends a base service and has no
function. -/
def enumAndDerivedService : parser.Thrift :=
  { Enums := ["Color"], StructLikes := []
    Services := [{ Extends := "base.BaseService", Functions := [] }] }

/-- A document with one service that extends a base service and has no function, and
nothing else. -/
def oneDerivedService : parser.Thrift :=
  { Enums := [], StructLikes := []
    Services := [{ Extends := "base.BaseService", Functions := [] }] }

/-- A document with no declaration. -/
def emptyDocument : parser.Thrift :=
  { Enums := [], StructLikes := [], Services := [] }

/-- The callback of `ResolveImports` as a step on the manager and the local map
`imports`: it reads `libNotUsed` of the manager and writes only `imports`. -/
def resolveStepOn {σ : Type} (aliasName path : String)
    (st : importManager σ × GoMap String) : (importManager σ × GoMap String) × Bool :=
  ((st.1, (resolveStep st.1.libNotUsed aliasName path st.2).1),
    (resolveStep st.1.libNotUsed aliasName path st.2).2)

/-- The method `importManager.ResolveImports` as a step on the manager: the receiver
that the call leaves, with what the call returns; `none` when the embedded
namespace is nil and the call panics. -/
def importManager.runResolveImports {σ : Type} (N : Golang.Namespace σ)
    (im : importManager σ) : Option (importManager σ × (GoMap String × Option String)) :=
  match im.Namespace with
  | none => none
  | some h =>
    some ((idHijack.Iterate N h resolveStepOn (im, [])).1,
      ((idHijack.Iterate N h resolveStepOn (im, [])).2, none))

/-- A replacement table that sends the key `"strings"` to the path `"bytes"`. -/
def stringsToBytes : GoMap String := [("strings", "bytes")]

/-- An order in which `Iterate` may hand the pairs of the namespace to its callback.
Go ranges over a map in an order that is not specified and that may differ from one
call to the next, so every rearrangement of `pairs` is such an order. -/
def Namespace.VisitOrder {σ : Type} (N : Golang.Namespace σ) (s : σ)
    (order : List (String × String)) : Prop :=
  order.Perm (N.pairs s)

/-- The method `importManager.ResolveImports` as a step on the manager when `Iterate`
visits the pairs in the order `order`: the receiver that the call leaves, with what
the call returns; `none` when the embedded namespace is nil and the call panics. -/
def importManager.runResolveImportsIn {σ : Type} (im : importManager σ)
    (order : List (String × String)) :
    Option (importManager σ × (GoMap String × Option String)) :=
  match im.Namespace with
  | none => none
  | some _ =>
    some ((iteratePairs order resolveStepOn (im, [])).1,
      ((iteratePairs order resolveStepOn (im, [])).2, none))

/-! # Properties -/

/-! ## The namespace service: registered keys -/

theorem NamespaceService.lookup_add_self (s : NamespaceService) (name id : String) :
    GoMap.lookup (NamespaceService.Add s name id).2.ids id
      = some (NamespaceService.Add s name id).1 := by
  unfold NamespaceService.Add
  cases hl : GoMap.lookup s.ids id with
  | some res => simpa using hl
  | none =>
    simp only [GoMap.lookup] at hl ⊢
    simp [List.lookup_append, hl, List.lookup]

theorem NamespaceService.get_add (s : NamespaceService) (name id : String) :
    NamespaceService.Get (NamespaceService.Add s name id).2 id
      = (NamespaceService.Add s name id).1 := by
  simp [NamespaceService.Get, NamespaceService.lookup_add_self]

/-! ## The identifier redirector -/

/-- C5 (redirector delegation): each of `Add`, `Get`, `Reserve` and `MustReserve`
of `idHijack` gives the result of the wrapped namespace's own operation called with
the key `get id`, leaves the wrapped namespace in the state that operation leaves
it in, and keeps the replacement table; `get id` is the table's value for `id` when
it has one and `id` otherwise, the same for all four operations. -/
theorem idHijack_delegates {σ : Type} (N : Golang.Namespace σ) (h : idHijack σ)
    (name id : String) :
    h.get id = (GoMap.lookup h.replacement id).getD id
    ∧ idHijack.Add N h name id
        = ((N.Add h.Namespace name (h.get id)).1,
           { Namespace := (N.Add h.Namespace name (h.get id)).2, replacement := h.replacement })
    ∧ idHijack.Get N h id = N.Get h.Namespace (h.get id)
    ∧ idHijack.Reserve N h name id
        = ((N.Reserve h.Namespace name (h.get id)).1,
           { Namespace := (N.Reserve h.Namespace name (h.get id)).2,
             replacement := h.replacement })
    ∧ idHijack.MustReserve N h name id
        = (N.MustReserve h.Namespace name (h.get id)).map
            (fun s => { Namespace := s, replacement := h.replacement }) := by
  refine ⟨?_, rfl, rfl, rfl, rfl⟩
  unfold idHijack.get
  cases GoMap.lookup h.replacement id <;> rfl

/-- C6 (Add-then-Get transparency): when the wrapped namespace's `Get` returns the
name its `Add` assigned to a key, `idHijack.Get K` after `idHijack.Add name K`
returns the alias that the `Add` returned, whether or not `K` has a replacement. -/
theorem idHijack_get_after_add {σ : Type} (N : Golang.Namespace σ) (h : idHijack σ)
    (name K : String)
    (law : ∀ (s : σ) (n id : String), N.Get (N.Add s n id).2 id = (N.Add s n id).1) :
    idHijack.Get N (idHijack.Add N h name K).2 K = (idHijack.Add N h name K).1 := by
  simp only [idHijack.Get, idHijack.Add, idHijack.get]
  exact law _ _ _

theorem idHijack_get_after_add_witness :
    (∀ (s : NamespaceService) (n id : String),
        NamespaceService.impl.Get (NamespaceService.impl.Add s n id).2 id
          = (NamespaceService.impl.Add s n id).1)
    ∧ idHijack.Get NamespaceService.impl
        (idHijack.Add NamespaceService.impl
          { Namespace := NewNamespace zeroIndexRename, replacement := [("thrift", "fork")] }
          "thrift" "thrift").2 "thrift"
      = (idHijack.Add NamespaceService.impl
          { Namespace := NewNamespace zeroIndexRename, replacement := [("thrift", "fork")] }
          "thrift" "thrift").1 :=
  ⟨NamespaceService.get_add,
   idHijack_get_after_add NamespaceService.impl _ "thrift" "thrift" NamespaceService.get_add⟩

/-! ## Confirmation -/

theorem GoMap.delete_of_lookup_none {β : Type} (m : GoMap β) (k : String)
    (hk : GoMap.lookup m k = none) : GoMap.delete m k = m := by
  unfold GoMap.delete
  rw [List.filter_eq_self]
  intro e he
  simp only [GoMap.lookup, List.lookup_eq_none_iff] at hk
  have hne := hk e he
  simp only [bne_iff_ne, ne_eq] at hne ⊢
  exact fun h => hne h.symm

theorem GoMap.lookup_delete_self {β : Type} (m : GoMap β) (k : String) :
    GoMap.lookup (GoMap.delete m k) k = none := by
  simp only [GoMap.lookup, GoMap.delete, List.lookup_eq_none_iff]
  intro e he
  have hne := (List.mem_filter.1 he).2
  simp only [bne_iff_ne, ne_eq] at hne ⊢
  exact fun h => hne h.symm

/-- C9 (confirmation is an idempotent no-op on absent keys): `UseStdLibrary k`
leaves the whole manager unchanged when `k` is not a key of `libNotUsed`; after
`UseStdLibrary k` the key is absent, so a second `UseStdLibrary k` changes nothing.
The operation is a total function: it has no failing case. -/
theorem UseStdLibrary_absent_noop {σ : Type} (im : importManager σ) (k : String) :
    (GoMap.lookup im.libNotUsed k = none → im.UseStdLibrary k = im)
    ∧ GoMap.lookup (im.UseStdLibrary k).libNotUsed k = none
    ∧ (im.UseStdLibrary k).UseStdLibrary k = im.UseStdLibrary k := by
  have key : ∀ (m : importManager σ), GoMap.lookup m.libNotUsed k = none →
      m.UseStdLibrary k = m := by
    intro m hm
    cases m with
    | mk ns lib =>
      simp only [importManager.UseStdLibrary] at hm ⊢
      rw [GoMap.delete_of_lookup_none lib k hm]
  have absent : GoMap.lookup (im.UseStdLibrary k).libNotUsed k = none :=
    GoMap.lookup_delete_self im.libNotUsed k
  exact ⟨key im, absent, key _ absent⟩

theorem UseStdLibrary_absent_noop_witness :
    GoMap.lookup (newImportManager NamespaceService).libNotUsed "fmt" = none
    ∧ (newImportManager NamespaceService).UseStdLibrary "fmt" = newImportManager NamespaceService :=
  ⟨by decide, (UseStdLibrary_absent_noop (newImportManager NamespaceService) "fmt").1 (by decide)⟩


/-! ## Go maps -/

theorem GoMap.lookup_store_self {β : Type} (m : GoMap β) (k : String) (v : β) :
    GoMap.lookup (GoMap.store m k v) k = some v := by
  induction m with
  | nil => simp [GoMap.store, GoMap.lookup, List.lookup]
  | cons e t ih =>
    obtain ⟨k', v'⟩ := e
    by_cases hk : k' = k
    · simp [GoMap.store, GoMap.lookup, List.lookup, hk]
    · have hb : (k == k') = false := by simpa using fun h => hk h.symm
      simp only [GoMap.lookup] at ih
      simp [GoMap.store, GoMap.lookup, List.lookup, hk, hb, ih]

theorem GoMap.lookup_store_ne {β : Type} (m : GoMap β) (k p : String) (v : β) (hne : p ≠ k) :
    GoMap.lookup (GoMap.store m k v) p = GoMap.lookup m p := by
  induction m with
  | nil =>
    have hb : (p == k) = false := by simpa using hne
    simp [GoMap.store, GoMap.lookup, List.lookup, hb]
  | cons e t ih =>
    obtain ⟨k', v'⟩ := e
    simp only [GoMap.lookup] at ih
    by_cases hk : k' = k
    · subst hk
      have hb : (p == k') = false := by simpa using hne
      simp [GoMap.store, GoMap.lookup, List.lookup, hb]
    · by_cases hp : p = k'
      · subst hp
        simp [GoMap.store, GoMap.lookup, List.lookup, hk]
      · have hb : (p == k') = false := by simpa using hp
        simp [GoMap.store, GoMap.lookup, List.lookup, hk, hb, ih]

theorem GoMap.lookup_delete_ne {β : Type} (m : GoMap β) (k p : String) (hne : p ≠ k) :
    GoMap.lookup (GoMap.delete m k) p = GoMap.lookup m p := by
  induction m with
  | nil => rfl
  | cons e t ih =>
    obtain ⟨k', v'⟩ := e
    simp only [GoMap.lookup, GoMap.delete] at ih ⊢
    by_cases hk : k' = k
    · subst hk
      have hb : (p == k') = false := by simpa using hne
      simp [List.filter, List.lookup, hb, ih]
    · rw [List.filter_cons_of_pos (by simpa using hk)]
      by_cases hp : p = k'
      · subst hp; simp [List.lookup]
      · have hb : (p == k') = false := by simpa using hp
        simp [List.lookup, hb, ih]

theorem GoMap.flag_delete (m : GoMap Bool) (k a : String) :
    GoMap.flag (GoMap.delete m k) a = (GoMap.flag m a && (a != k)) := by
  by_cases h : a = k
  · subst h
    simp [GoMap.flag, GoMap.lookup_delete_self]
  · have hb : (a != k) = true := by simpa using h
    simp [GoMap.flag, GoMap.lookup_delete_ne m k a h, hb]

/-! ## What `ResolveImports` returns -/

theorem iteratePairs_resolveStep (lib : GoMap Bool) (l : List (String × String))
    (m : GoMap String) :
    iteratePairs l (resolveStep lib) m = l.foldl (fun acc e => (resolveStep lib e.1 e.2 acc).1) m := by
  induction l generalizing m with
  | nil => rfl
  | cons e t ih =>
    obtain ⟨a, p⟩ := e
    have hcont : (resolveStep lib a p m).2 = true := by
      unfold resolveStep; split_ifs <;> rfl
    simp only [iteratePairs, List.foldl_cons]
    cases hr : resolveStep lib a p m with
    | mk m' b =>
      rw [hr] at hcont
      simp only at hcont
      subst hcont
      simp [ih]

theorem resolveStep_fst (lib : GoMap Bool) (a p : String) (m : GoMap String) :
    (resolveStep lib a p m).1
      = if GoMap.flag lib a = true then m else GoMap.store m p (emittedAlias a p) := by
  unfold resolveStep emittedAlias
  split_ifs <;> rfl

theorem lookup_resolve_skip (lib : GoMap Bool) (l : List (String × String)) (m : GoMap String)
    (p : String) (hskip : ∀ a, (a, p) ∈ l → GoMap.flag lib a = true) :
    GoMap.lookup (iteratePairs l (resolveStep lib) m) p = GoMap.lookup m p := by
  rw [iteratePairs_resolveStep]
  induction l generalizing m with
  | nil => rfl
  | cons e t ih =>
    obtain ⟨a, q⟩ := e
    rw [List.foldl_cons, ih _ (fun a' ha' => hskip a' (List.mem_cons_of_mem _ ha'))]
    rw [resolveStep_fst]
    by_cases hf : GoMap.flag lib a = true
    · simp [hf]
    · have hq : p ≠ q := by
        intro hpq
        subst hpq
        exact hf (hskip a (List.mem_cons_self _ _))
      simp [hf, GoMap.lookup_store_ne _ _ _ _ hq]

theorem lookup_resolve_emit (lib : GoMap Bool) (l : List (String × String)) (m : GoMap String)
    (a p : String) (hd : (l.map Prod.snd).Nodup) (hmem : (a, p) ∈ l)
    (hflag : GoMap.flag lib a = false) :
    GoMap.lookup (iteratePairs l (resolveStep lib) m) p = some (emittedAlias a p) := by
  induction l generalizing m with
  | nil => cases hmem
  | cons e t ih =>
    obtain ⟨b, q⟩ := e
    simp only [List.map_cons, List.nodup_cons] at hd
    have hstep : iteratePairs ((b, q) :: t) (resolveStep lib) m
        = iteratePairs t (resolveStep lib) (resolveStep lib b q m).1 := by
      simp [iteratePairs_resolveStep]
    rw [hstep]
    rcases List.mem_cons.1 hmem with heq | htail
    · cases heq
      have hrest : ∀ a', (a', p) ∈ t → GoMap.flag lib a' = true := by
        intro a' ha'
        exact absurd (List.mem_map_of_mem Prod.snd ha') hd.1
      rw [lookup_resolve_skip lib t _ p hrest, resolveStep_fst]
      simp [hflag, GoMap.lookup_store_self]
    · exact ih _ hd.2 htail

theorem ResolveImports_eq {σ : Type} (N : Golang.Namespace σ) (im : importManager σ)
    (h : idHijack σ) (hns : im.Namespace = some h) :
    im.ResolveImports N
      = some (iteratePairs (N.pairs h.Namespace) (resolveStep im.libNotUsed) [], none) := by
  simp [importManager.ResolveImports, hns, idHijack.Iterate, Namespace.Iterate]



theorem alias_unique_of_nodup (l : List (String × String)) (hd : (l.map Prod.snd).Nodup)
    (a b p : String) (ha : (a, p) ∈ l) (hb : (b, p) ∈ l) : a = b := by
  induction l with
  | nil => cases ha
  | cons e t ih =>
    simp only [List.map_cons, List.nodup_cons] at hd
    rcases List.mem_cons.1 ha with h1 | h1 <;> rcases List.mem_cons.1 hb with h2 | h2
    · rw [← h2] at h1
      exact congrArg Prod.fst h1
    · subst h1
      exact absurd (List.mem_map_of_mem Prod.snd h2) hd.1
    · subst h2
      exact absurd (List.mem_map_of_mem Prod.snd h1) hd.1
    · exact ih hd.2 h1 h2

theorem lookup_resolve_of_mem (lib : GoMap Bool) (l : List (String × String))
    (a p : String) (hd : (l.map Prod.snd).Nodup) (hmem : (a, p) ∈ l) :
    GoMap.lookup (iteratePairs l (resolveStep lib) []) p
      = if GoMap.flag lib a = true then none else some (emittedAlias a p) := by
  by_cases hf : GoMap.flag lib a = true
  · rw [if_pos hf, lookup_resolve_skip lib l [] p]
    · rfl
    · intro a' ha'
      rw [← alias_unique_of_nodup l hd a a' p hmem ha']
      exact hf
  · rw [if_neg hf]
    exact lookup_resolve_emit lib l [] a p hd hmem (by simpa using hf)

theorem lookup_resolve_of_not_mem (lib : GoMap Bool) (l : List (String × String))
    (p : String) (hnot : ∀ a, (a, p) ∉ l) :
    GoMap.lookup (iteratePairs l (resolveStep lib) []) p = none := by
  rw [lookup_resolve_skip lib l [] p (fun a ha => absurd ha (hnot a))]
  rfl

/-! ## Sequences of confirmations -/

theorem useAll_Namespace {σ : Type} (im : importManager σ) (libs : List String) :
    (useAll im libs).Namespace = im.Namespace := by
  induction libs generalizing im with
  | nil => rfl
  | cons k t ih => simp only [useAll, List.foldl_cons] at ih ⊢; rw [ih]; rfl

theorem flag_useAll {σ : Type} (im : importManager σ) (libs : List String) (a : String) :
    GoMap.flag (useAll im libs).libNotUsed a
      = (GoMap.flag im.libNotUsed a && decide (a ∉ libs)) := by
  induction libs generalizing im with
  | nil => simp [useAll]
  | cons k t ih =>
    simp only [useAll, List.foldl_cons] at ih ⊢
    rw [ih]
    simp only [importManager.UseStdLibrary, GoMap.flag_delete]
    by_cases hak : a = k
    · subst hak; simp
    · have hb : (a != k) = true := by simpa using hak
      simp [hb, hak]

theorem lookup_useAll_none {σ : Type} (im : importManager σ) (libs : List String) (k : String)
    (hk : GoMap.lookup im.libNotUsed k = none) :
    GoMap.lookup (useAll im libs).libNotUsed k = none := by
  induction libs generalizing im with
  | nil => exact hk
  | cons x t ih =>
    simp only [useAll, List.foldl_cons] at ih ⊢
    apply ih
    by_cases hx : k = x
    · subst hx; exact GoMap.lookup_delete_self _ _
    · simp only [importManager.UseStdLibrary]
      rw [GoMap.lookup_delete_ne _ _ _ hx]
      exact hk

/-! ## The final path segment -/

theorem lastSegmentChars_spec (l : List Char) :
    ('/' ∉ l ∧ lastSegmentChars l = l) ∨ ∃ pre, l = pre ++ '/' :: lastSegmentChars l := by
  induction l with
  | nil => exact Or.inl ⟨by simp, rfl⟩
  | cons c t ih =>
    by_cases ht : '/' ∈ t
    · have hseg : lastSegmentChars (c :: t) = lastSegmentChars t := by
        simp [lastSegmentChars, ht]
      rw [hseg]
      rcases ih with ⟨hno, _⟩ | ⟨pre, hpre⟩
      · exact absurd ht hno
      · exact Or.inr ⟨c :: pre, by rw [List.cons_append, ← hpre]⟩
    · by_cases hc : c = '/'
      · exact Or.inr ⟨[], by simp [lastSegmentChars, ht, hc]⟩
      · refine Or.inl ⟨?_, by simp [lastSegmentChars, ht, hc]⟩
        simp only [List.mem_cons, not_or]
        exact ⟨fun h => hc h.symm, ht⟩

theorem HasSuffix_of_append (path suffix : String) (pre : List Char)
    (hsplit : path.data = pre ++ suffix.data) : strings.HasSuffix path suffix = true := by
  unfold strings.HasSuffix
  rw [hsplit]
  simp

theorem emittedAlias_lastSegment (path : String) : emittedAlias (lastSegment path) path = "" := by
  unfold emittedAlias
  rw [if_pos]
  rcases lastSegmentChars_spec path.data with ⟨_, hall⟩ | ⟨pre, hpre⟩
  · left
    unfold lastSegment
    rw [hall]
  · right
    apply HasSuffix_of_append path _ pre
    simpa [lastSegment] using hpre

/-- C7 (no-alias elision): for an entry `(aliasName, path)` of the namespace that
`ResolveImports` does not skip, if the alias is the final `/`-separated segment of
the path (the whole path when it has no `/`), the returned map stores the empty
string for the path. The ids of the namespace are pairwise distinct, as the keys
of a map are. -/
theorem ResolveImports_elides_final_segment {σ : Type} (N : Golang.Namespace σ)
    (im : importManager σ) (h : idHijack σ) (aliasName path : String)
    (hns : im.Namespace = some h) (hd : N.DistinctIds h.Namespace)
    (hmem : (aliasName, path) ∈ N.pairs h.Namespace)
    (hemit : GoMap.flag im.libNotUsed aliasName = false)
    (hseg : aliasName = lastSegment path) :
    ∃ m, im.ResolveImports N = some (m, none) ∧ GoMap.lookup m path = some "" := by
  refine ⟨_, ResolveImports_eq N im h hns, ?_⟩
  rw [lookup_resolve_of_mem im.libNotUsed _ aliasName path hd hmem, hemit, hseg,
    emittedAlias_lastSegment]
  simp

/-- C3 (confirmation monotonicity): in a manager whose namespace is set, once
`UseStdLibrary k` has been called, `k` is not a key of `libNotUsed` after any
sequence of further `UseStdLibrary` calls, and every entry of the map that
`ResolveImports` returns right after `UseStdLibrary k` is an entry of the map it
returns after the further calls, with the same alias. The ids of the namespace are
pairwise distinct, as the keys of a map are. -/
theorem confirmation_monotone {σ : Type} (N : Golang.Namespace σ) (im : importManager σ)
    (h : idHijack σ) (k : String) (further : List String)
    (hns : im.Namespace = some h) (hd : N.DistinctIds h.Namespace) :
    GoMap.lookup (useAll (im.UseStdLibrary k) further).libNotUsed k = none
    ∧ ∃ m1 m2, (im.UseStdLibrary k).ResolveImports N = some (m1, none)
        ∧ (useAll (im.UseStdLibrary k) further).ResolveImports N = some (m2, none)
        ∧ ∀ p v, GoMap.lookup m1 p = some v → GoMap.lookup m2 p = some v := by
  have hns1 : (im.UseStdLibrary k).Namespace = some h := hns
  have hns2 : (useAll (im.UseStdLibrary k) further).Namespace = some h := by
    rw [useAll_Namespace]; exact hns1
  refine ⟨lookup_useAll_none _ _ _ (GoMap.lookup_delete_self _ _), _, _,
    ResolveImports_eq N _ h hns1, ResolveImports_eq N _ h hns2, ?_⟩
  intro p v hv
  by_cases hex : ∃ a, (a, p) ∈ N.pairs h.Namespace
  · obtain ⟨a, ha⟩ := hex
    rw [lookup_resolve_of_mem _ _ a p hd ha] at hv ⊢
    by_cases hf : GoMap.flag (im.UseStdLibrary k).libNotUsed a = true
    · simp [hf] at hv
    · have hf2 : ¬ GoMap.flag (useAll (im.UseStdLibrary k) further).libNotUsed a = true := by
        rw [flag_useAll]
        simp [hf]
      rw [if_neg hf] at hv
      rw [if_neg hf2]
      exact hv
  · rw [lookup_resolve_of_not_mem _ _ p (fun a ha => hex ⟨a, ha⟩)] at hv
    cases hv



/-! ## The calls of `init` -/

theorem get_eq_redirect {σ : Type} (h : idHijack σ) (id : String) :
    h.get id = redirect h.replacement id := rfl

theorem foldl_addImport (ns : idHijack NamespaceService) (calls : List (String × String)) :
    calls.foldl (fun n c => addImport n c.1 c.2) ns
      = { Namespace := (calls.map (redirectCall ns.replacement)).foldl
            (fun s c => (NamespaceService.Add s c.1 c.2).2) ns.Namespace
          replacement := ns.replacement } := by
  induction calls generalizing ns with
  | nil => rfl
  | cons c t ih =>
    rw [List.foldl_cons, ih]
    rfl

theorem foldl_ite_nil {α β : Type} (c : Prop) [Decidable c] (f : β → α → β) (b : β)
    (l : List α) : (if c then l else []).foldl f b = if c then l.foldl f b else b := by
  split_ifs <;> rfl

theorem foldl_initService (ns : idHijack NamespaceService) (svcs : List parser.Service) :
    svcs.foldl initService ns
      = (svcs.flatMap serviceCalls).foldl (fun n c => addImport n c.1 c.2) ns := by
  induction svcs generalizing ns with
  | nil => rfl
  | cons svc t ih =>
    rw [List.foldl_cons, ih, List.flatMap_cons, List.foldl_append]
    congr 1
    unfold initService serviceCalls
    rw [List.foldl_append, foldl_ite_nil, foldl_ite_nil]
    rfl

theorem foldl_enumCalls (cu : CodeUtils) (ast : parser.Thrift) (ns : idHijack NamespaceService) :
    (enumCalls cu ast).foldl (fun n c => addImport n c.1 c.2) ns
      = if ast.Enums.length > 0 then
          if cu.Features.ScanValueForEnum then
            addImport (addImport (addImport ns "fmt" "fmt") "driver" "database/sql/driver")
              "sql" "database/sql"
          else addImport ns "fmt" "fmt"
        else ns := by
  unfold enumCalls
  split_ifs <;> rfl

theorem foldl_structCalls (T : String) (cu : CodeUtils) (ast : parser.Thrift)
    (ns : idHijack NamespaceService) :
    (structCalls T cu ast).foldl (fun n c => addImport n c.1 c.2) ns
      = if ast.GetStructLikes.length > 0 then
          if !cu.features.DefinitionOnly then addImport (addImport ns "fmt" "fmt") "thrift" T
          else addImport ns "fmt" "fmt"
        else ns := by
  unfold structCalls
  split_ifs <;> rfl

theorem foldl_servicesCalls (T : String) (cu : CodeUtils) (ast : parser.Thrift)
    (ns : idHijack NamespaceService) :
    (servicesCalls T cu ast).foldl (fun n c => addImport n c.1 c.2) ns
      = if ast.Services.length > 0 then
          ast.Services.foldl initService
            (if !cu.features.DefinitionOnly then addImport ns "thrift" T else ns)
        else ns := by
  unfold servicesCalls
  rw [foldl_ite_nil, List.foldl_append, foldl_ite_nil, foldl_initService]
  rfl

theorem foldl_unknownCalls (U : String) (cu : CodeUtils) (ast : parser.Thrift)
    (ns : idHijack NamespaceService) :
    (unknownCalls U cu ast).foldl (fun n c => addImport n c.1 c.2) ns
      = if structCount ast > 0 ∧ cu.Features.KeepUnknownFields = true then
          addImport ns "unknown" U
        else ns := by
  unfold unknownCalls
  split_ifs <;> rfl

theorem foldl_tentativeCalls (cu : CodeUtils) (ns : idHijack NamespaceService) :
    (tentativeCalls cu).foldl (fun n c => addImport n c.1 c.2) ns
      = if cu.Features.GenDeepEqual then
          addImport (addImport ns "strings" "strings") "bytes" "bytes"
        else if cu.Features.ValidateSet then addImport ns "reflect" "reflect"
        else ns := by
  unfold tentativeCalls
  split_ifs <;> rfl

theorem init_eq_foldl (T U : String) (im : importManager NamespaceService) (cu : CodeUtils)
    (ast : parser.Thrift) :
    importManager.init T U im cu ast
      = { Namespace := some ((initCalls T U cu ast).foldl (fun n c => addImport n c.1 c.2)
            { Namespace := NewNamespace zeroIndexRename, replacement := cu.importReplace })
          libNotUsed := im.libNotUsed } := by
  unfold initCalls shapeCalls
  rw [List.foldl_append, List.foldl_append, List.foldl_append, List.foldl_append,
    foldl_tentativeCalls, foldl_unknownCalls, foldl_servicesCalls, foldl_structCalls,
    foldl_enumCalls]
  rfl



/-! ## Registration without numbering -/

theorem GoMap.lookup_ne_none_of_mem {β : Type} (m : GoMap β) (k : String) (v : β)
    (hmem : (k, v) ∈ m) : GoMap.lookup m k ≠ none := by
  intro hnone
  simp only [GoMap.lookup, List.lookup_eq_none_iff] at hnone
  have := hnone (k, v) hmem
  simp at this

theorem GoMap.mem_of_lookup_eq_some {β : Type} (m : GoMap β) (k : String) (v : β)
    (hl : GoMap.lookup m k = some v) : (k, v) ∈ m := by
  induction m with
  | nil => cases hl
  | cons e t ih =>
    obtain ⟨k', v'⟩ := e
    simp only [GoMap.lookup] at hl ih
    by_cases hk : k = k'
    · subst hk
      simp only [List.lookup_cons_self, Option.some.injEq] at hl
      subst hl
      exact List.mem_cons_self _ _
    · have hb : (k == k') = false := by simpa using hk
      simp only [List.lookup, hb] at hl
      exact List.mem_cons_of_mem _ (ih hl)

theorem NamespaceService.taken_iff (s : NamespaceService) (name : String) :
    s.taken name = true ↔ ∃ id, (id, name) ∈ s.ids := by
  unfold NamespaceService.taken
  rw [List.any_eq_true]
  constructor
  · rintro ⟨⟨id, n⟩, hmem, hn⟩
    have hn' : n = name := by simpa using hn
    subst hn'
    exact ⟨id, hmem⟩
  · rintro ⟨id, hmem⟩
    exact ⟨(id, name), hmem, by simp⟩

theorem Add_eq_register (s : NamespaceService) (c : String × String)
    (all : List (String × String))
    (hcoh : ∀ c1 ∈ all, ∀ c2 ∈ all, c1.1 = c2.1 → c1.2 = c2.2)
    (hinv : ∀ e ∈ s.ids, (e.2, e.1) ∈ all) (hc : c ∈ all) :
    (NamespaceService.Add s c.1 c.2).2 = { rename := s.rename, ids := register s.ids c } := by
  unfold NamespaceService.Add register
  cases hl : GoMap.lookup s.ids c.2 with
  | some res => rfl
  | none =>
    have hfree : s.taken c.1 = false := by
      cases ht : s.taken c.1 with
      | false => rfl
      | true =>
        obtain ⟨id, hmem⟩ := (NamespaceService.taken_iff s c.1).1 ht
        have hid : id = c.2 := hcoh (c.1, id) (hinv _ hmem) c hc rfl
        subst hid
        exact absurd hl (GoMap.lookup_ne_none_of_mem _ _ _ hmem)
    simp [NamespaceService.assign, hfree]

theorem register_inv (ids : GoMap String) (c : String × String) (all : List (String × String))
    (hinv : ∀ e ∈ ids, (e.2, e.1) ∈ all) (hc : c ∈ all) :
    ∀ e ∈ register ids c, (e.2, e.1) ∈ all := by
  unfold register
  cases GoMap.lookup ids c.2 with
  | some res => exact hinv
  | none =>
    intro e he
    rcases List.mem_append.1 he with h1 | h1
    · exact hinv e h1
    · simp only [List.mem_singleton] at h1
      subst h1
      exact hc

theorem foldl_Add_eq_register (rn : String → Int → String) (all todo : List (String × String))
    (ids : GoMap String)
    (hcoh : ∀ c1 ∈ all, ∀ c2 ∈ all, c1.1 = c2.1 → c1.2 = c2.2)
    (hinv : ∀ e ∈ ids, (e.2, e.1) ∈ all) (hsub : ∀ c ∈ todo, c ∈ all) :
    todo.foldl (fun s c => (NamespaceService.Add s c.1 c.2).2) { rename := rn, ids := ids }
      = { rename := rn, ids := todo.foldl register ids } := by
  induction todo generalizing ids with
  | nil => rfl
  | cons c t ih =>
    have hc : c ∈ all := hsub c (List.mem_cons_self _ _)
    rw [List.foldl_cons, List.foldl_cons,
      Add_eq_register { rename := rn, ids := ids } c all hcoh hinv hc]
    exact ih _ (register_inv ids c all hinv hc) (fun x hx => hsub x (List.mem_cons_of_mem _ hx))

theorem lookup_register (ids : GoMap String) (c : String × String) (p : String) :
    GoMap.lookup (register ids c) p
      = (GoMap.lookup ids p).or (if c.2 = p then some c.1 else none) := by
  unfold register
  cases hl : GoMap.lookup ids c.2 with
  | some res =>
    by_cases hp : c.2 = p
    · subst hp; simp [hl]
    · simp [hp]
  | none =>
    simp only [GoMap.lookup] at hl ⊢
    rw [List.lookup_append]
    by_cases hp : c.2 = p
    · subst hp; simp [List.lookup]
    · have hb : (p == c.2) = false := by simpa using fun h => hp h.symm
      simp [List.lookup, hb, hp]

theorem lookup_foldl_register (calls : List (String × String)) (ids : GoMap String)
    (p : String) :
    GoMap.lookup (calls.foldl register ids) p
      = (GoMap.lookup ids p).or ((calls.find? (fun c => c.2 == p)).map Prod.fst) := by
  induction calls generalizing ids with
  | nil => simp
  | cons c t ih =>
    rw [List.foldl_cons, ih, lookup_register]
    by_cases hp : c.2 = p
    · have hb : (c.2 == p) = true := by simpa using hp
      cases GoMap.lookup ids p <;> simp [List.find?, hb, hp]
    · have hb : (c.2 == p) = false := by simpa using hp
      cases GoMap.lookup ids p <;> simp [List.find?, hb, hp]

theorem nodup_register (ids : GoMap String) (c : String × String)
    (hd : (ids.map Prod.fst).Nodup) : ((register ids c).map Prod.fst).Nodup := by
  unfold register
  cases hl : GoMap.lookup ids c.2 with
  | some res => exact hd
  | none =>
    rw [List.map_append, List.nodup_append]
    refine ⟨hd, by simp, ?_⟩
    intro a ha hb
    simp only [List.map_cons, List.map_nil, List.mem_singleton] at hb
    subst hb
    obtain ⟨e, he, hfst⟩ := List.mem_map.1 ha
    obtain ⟨k, v⟩ := e
    simp only at hfst
    subst hfst
    exact GoMap.lookup_ne_none_of_mem _ _ _ he hl

theorem nodup_foldl_register (calls : List (String × String)) (ids : GoMap String)
    (hd : (ids.map Prod.fst).Nodup) : ((calls.foldl register ids).map Prod.fst).Nodup := by
  induction calls generalizing ids with
  | nil => exact hd
  | cons c t ih => exact ih _ (nodup_register ids c hd)



/-! ## The namespace after `init` -/

theorem enumCalls_subset (T U : String) (cu : CodeUtils) (ast : parser.Thrift) :
    ∀ c ∈ enumCalls cu ast, c ∈ (allCalls T U).take 6 := by
  intro c hc
  unfold enumCalls at hc
  simp only [allCalls, List.take, List.mem_cons]
  split_ifs at hc <;> simp only [List.mem_cons, List.mem_singleton, List.not_mem_nil] at hc <;>
    tauto

theorem structCalls_subset (T U : String) (cu : CodeUtils) (ast : parser.Thrift) :
    ∀ c ∈ structCalls T cu ast, c ∈ (allCalls T U).take 6 := by
  intro c hc
  unfold structCalls at hc
  simp only [allCalls, List.take, List.mem_cons]
  split_ifs at hc <;> simp only [List.mem_cons, List.mem_singleton, List.not_mem_nil] at hc <;>
    tauto

theorem serviceCalls_subset (T U : String) (svc : parser.Service) :
    ∀ c ∈ serviceCalls svc, c ∈ (allCalls T U).take 6 := by
  intro c hc
  unfold serviceCalls at hc
  simp only [allCalls, List.take, List.mem_cons]
  split_ifs at hc <;>
    simp only [List.mem_append, List.mem_cons, List.mem_singleton, List.not_mem_nil] at hc <;>
    tauto

theorem servicesCalls_subset (T U : String) (cu : CodeUtils) (ast : parser.Thrift) :
    ∀ c ∈ servicesCalls T cu ast, c ∈ (allCalls T U).take 6 := by
  intro c hc
  unfold servicesCalls at hc
  have hcases : c = ("thrift", T) ∨ ∃ svc ∈ ast.Services, c ∈ serviceCalls svc := by
    split_ifs at hc <;>
      simp only [List.mem_append, List.mem_singleton, List.not_mem_nil, List.mem_flatMap] at hc <;>
      tauto
  rcases hcases with rfl | ⟨svc, _, hsvc⟩
  · simp [allCalls]
  · exact serviceCalls_subset T U svc c hsvc

theorem unknownCalls_subset (T U : String) (cu : CodeUtils) (ast : parser.Thrift) :
    ∀ c ∈ unknownCalls U cu ast, c ∈ (allCalls T U).take 6 := by
  intro c hc
  unfold unknownCalls at hc
  simp only [allCalls, List.take, List.mem_cons]
  split_ifs at hc
  · simp only [List.mem_singleton] at hc
    tauto
  · cases hc

theorem shapeCalls_subset (T U : String) (cu : CodeUtils) (ast : parser.Thrift) :
    ∀ c ∈ shapeCalls T U cu ast, c ∈ (allCalls T U).take 6 := by
  intro c hc
  simp only [shapeCalls, List.mem_append] at hc
  rcases hc with ((h | h) | h) | h
  · exact enumCalls_subset T U cu ast c h
  · exact structCalls_subset T U cu ast c h
  · exact servicesCalls_subset T U cu ast c h
  · exact unknownCalls_subset T U cu ast c h

theorem tentativeCalls_subset (T U : String) (cu : CodeUtils) :
    ∀ c ∈ tentativeCalls cu, c ∈ (allCalls T U).drop 6 := by
  intro c hc
  unfold tentativeCalls at hc
  simp only [allCalls, List.drop, List.mem_cons]
  split_ifs at hc <;> simp only [List.mem_cons, List.mem_singleton, List.not_mem_nil] at hc <;>
    tauto

theorem initCalls_subset (T U : String) (cu : CodeUtils) (ast : parser.Thrift) :
    ∀ c ∈ initCalls T U cu ast, c ∈ allCalls T U := by
  intro c hc
  rcases List.mem_append.1 hc with h | h
  · exact List.mem_of_mem_take (shapeCalls_subset T U cu ast c h)
  · exact List.mem_of_mem_drop (tentativeCalls_subset T U cu c h)

theorem allCalls_coherent (T U : String) (r : GoMap String) :
    ∀ c1 ∈ (allCalls T U).map (redirectCall r), ∀ c2 ∈ (allCalls T U).map (redirectCall r),
      c1.1 = c2.1 → c1.2 = c2.2 := by
  intro c1 h1 c2 h2 hname
  obtain ⟨d1, hd1, rfl⟩ := List.mem_map.1 h1
  obtain ⟨d2, hd2, rfl⟩ := List.mem_map.1 h2
  simp only [redirectCall] at hname ⊢
  simp only [allCalls, List.mem_cons, List.mem_singleton, List.not_mem_nil, or_false] at hd1 hd2
  rcases hd1 with rfl | rfl | rfl | rfl | rfl | rfl | rfl | rfl | rfl <;>
    rcases hd2 with rfl | rfl | rfl | rfl | rfl | rfl | rfl | rfl | rfl <;>
    first
      | rfl
      | simp at hname

theorem init_eq (T U : String) (im : importManager NamespaceService) (cu : CodeUtils)
    (ast : parser.Thrift) :
    importManager.init T U im cu ast
      = { Namespace := some
            { Namespace := { rename := zeroIndexRename, ids := initIds T U cu ast }
              replacement := cu.importReplace }
          libNotUsed := im.libNotUsed } := by
  rw [init_eq_foldl, foldl_addImport]
  simp only [NewNamespace]
  rw [foldl_Add_eq_register zeroIndexRename ((allCalls T U).map (redirectCall cu.importReplace))
    _ [] (allCalls_coherent T U cu.importReplace) (by simp)]
  · rfl
  · intro c hc
    obtain ⟨d, hd, rfl⟩ := List.mem_map.1 hc
    exact List.mem_map_of_mem _ (initCalls_subset T U cu ast d hd)

theorem initIds_nodup (T U : String) (cu : CodeUtils) (ast : parser.Thrift) :
    ((initIds T U cu ast).map Prod.fst).Nodup :=
  nodup_foldl_register _ [] (by simp)

theorem init_distinctIds (T U : String) (cu : CodeUtils) (ast : parser.Thrift) :
    NamespaceService.impl.DistinctIds
      { rename := zeroIndexRename, ids := initIds T U cu ast } := by
  unfold Namespace.DistinctIds
  simp only [NamespaceService.impl, NamespaceService.pairs, List.map_map]
  exact initIds_nodup T U cu ast

theorem lookup_initIds (T U : String) (cu : CodeUtils) (ast : parser.Thrift) (p : String) :
    GoMap.lookup (initIds T U cu ast) p
      = (((initCalls T U cu ast).map (redirectCall cu.importReplace)).find?
          (fun c => c.2 == p)).map Prod.fst := by
  unfold initIds
  rw [lookup_foldl_register]
  rfl



/-! ## The import map after `init` -/

theorem afterInit_Namespace (T U : String) (cu : CodeUtils) (ast : parser.Thrift)
    (libs : List String) :
    (afterInit T U cu ast libs).Namespace
      = some { Namespace := { rename := zeroIndexRename, ids := initIds T U cu ast }
               replacement := cu.importReplace } := by
  unfold afterInit
  rw [useAll_Namespace, init_eq]

theorem ResolveImports_afterInit (T U : String) (cu : CodeUtils) (ast : parser.Thrift)
    (libs : List String) :
    (afterInit T U cu ast libs).ResolveImports NamespaceService.impl
      = some (initImports T U cu ast libs, none) := by
  rw [ResolveImports_eq _ _ _ (afterInit_Namespace T U cu ast libs)]
  rfl

theorem flag_afterInit (T U : String) (cu : CodeUtils) (ast : parser.Thrift)
    (libs : List String) (a : String) :
    GoMap.flag (afterInit T U cu ast libs).libNotUsed a
      = (decide (a ∈ tentativeNames) && decide (a ∉ libs)) := by
  unfold afterInit
  rw [flag_useAll, init_eq]
  congr 1
  simp only [newImportManager, GoMap.flag, GoMap.lookup, tentativeNames, List.lookup]
  by_cases h1 : a = "strings"
  · subst h1; rfl
  · by_cases h2 : a = "bytes"
    · subst h2; rfl
    · by_cases h3 : a = "reflect"
      · subst h3; rfl
      · have b1 : (a == "strings") = false := by simpa using h1
        have b2 : (a == "bytes") = false := by simpa using h2
        have b3 : (a == "reflect") = false := by simpa using h3
        simp [b1, b2, b3, h1, h2, h3]

theorem lookup_initImports (T U : String) (cu : CodeUtils) (ast : parser.Thrift)
    (libs : List String) (p : String) :
    GoMap.lookup (initImports T U cu ast libs) p
      = match GoMap.lookup (initIds T U cu ast) p with
        | none => none
        | some a =>
          if GoMap.flag (afterInit T U cu ast libs).libNotUsed a = true then none
          else some (emittedAlias a p) := by
  unfold initImports
  cases hl : GoMap.lookup (initIds T U cu ast) p with
  | none =>
    apply lookup_resolve_of_not_mem
    intro a ha
    simp only [NamespaceService.pairs, List.mem_map, Prod.mk.injEq] at ha
    obtain ⟨⟨k, v⟩, hmem, hv, hk⟩ := ha
    simp only at hv hk
    subst hv hk
    exact GoMap.lookup_ne_none_of_mem _ _ _ hmem hl
  | some a =>
    apply lookup_resolve_of_mem
    · have := initIds_nodup T U cu ast
      simpa [NamespaceService.pairs, List.map_map] using this
    · simp only [NamespaceService.pairs, List.mem_map, Prod.mk.injEq]
      exact ⟨(p, a), GoMap.mem_of_lookup_eq_some _ _ _ hl, rfl, rfl⟩

theorem first_call_spec (calls : List (String × String)) (r : GoMap String) (p : String) :
    ((calls.map (redirectCall r)).find? (fun c => c.2 == p) = none
        ∧ ∀ c ∈ calls, redirect r c.2 ≠ p)
    ∨ ∃ c ∈ calls, redirect r c.2 = p
        ∧ (calls.map (redirectCall r)).find? (fun c => c.2 == p) = some (c.1, p) := by
  cases hf : (calls.map (redirectCall r)).find? (fun c => c.2 == p) with
  | none =>
    left
    refine ⟨rfl, ?_⟩
    intro c hc hp
    rw [List.find?_eq_none] at hf
    exact hf (redirectCall r c) (List.mem_map_of_mem _ hc) (by simpa [redirectCall] using hp)
  | some e =>
    right
    obtain ⟨c, hc, rfl⟩ := List.mem_map.1 (List.mem_of_find?_eq_some hf)
    have hp : redirect r c.2 = p := by
      have := List.find?_some hf
      simpa [redirectCall] using this
    exact ⟨c, hc, hp, by rw [← hp]; rfl⟩

/-- No entry: every call of `init` for the path has a name that is still held as
not used. -/
theorem no_entry_afterInit (T U : String) (cu : CodeUtils) (ast : parser.Thrift)
    (libs : List String) (p : String)
    (hall : ∀ c ∈ initCalls T U cu ast, redirect cu.importReplace c.2 = p →
      c.1 ∈ tentativeNames ∧ c.1 ∉ libs) :
    GoMap.lookup (initImports T U cu ast libs) p = none := by
  rw [lookup_initImports, lookup_initIds]
  rcases first_call_spec (initCalls T U cu ast) cu.importReplace p with ⟨hnone, _⟩ | ⟨c, hc, hp, hfirst⟩
  · rw [hnone]; rfl
  · rw [hfirst]
    have := hall c hc hp
    simp [flag_afterInit, this.1, this.2]

/-- An entry: some call of `init` has the path, and every call that has it bears a
name that was never held as not used or is confirmed. -/
theorem entry_afterInit (T U : String) (cu : CodeUtils) (ast : parser.Thrift)
    (libs : List String) (p : String)
    (hex : ∃ c ∈ initCalls T U cu ast, redirect cu.importReplace c.2 = p)
    (hall : ∀ c ∈ initCalls T U cu ast, redirect cu.importReplace c.2 = p →
      c.1 ∉ tentativeNames ∨ c.1 ∈ libs) :
    GoMap.lookup (initImports T U cu ast libs) p ≠ none := by
  rw [lookup_initImports, lookup_initIds]
  rcases first_call_spec (initCalls T U cu ast) cu.importReplace p with ⟨_, hno⟩ | ⟨c, hc, hp, hfirst⟩
  · obtain ⟨c, hc, hp⟩ := hex
    exact absurd hp (hno c hc)
  · rw [hfirst]
    have hflag : GoMap.flag (afterInit T U cu ast libs).libNotUsed c.1 = false := by
      rw [flag_afterInit]
      rcases hall c hc hp with h | h <;> simp [h]
    simp [hflag]

/-- An entry: some call of `init` that depends on the shape of the document has the
path, whatever is confirmed. -/
theorem entry_of_shapeCall (T U : String) (cu : CodeUtils) (ast : parser.Thrift)
    (libs : List String) (c : String × String) (hc : c ∈ shapeCalls T U cu ast) :
    GoMap.lookup (initImports T U cu ast libs) (redirect cu.importReplace c.2) ≠ none := by
  rw [lookup_initImports, lookup_initIds]
  unfold initCalls
  rw [List.map_append, List.find?_append]
  rcases first_call_spec (shapeCalls T U cu ast) cu.importReplace
      (redirect cu.importReplace c.2) with ⟨_, hno⟩ | ⟨d, hd, _, hfirst⟩
  · exact absurd rfl (hno c hc)
  · rw [hfirst]
    have hname : d.1 ∉ tentativeNames := by
      have hmem := shapeCalls_subset T U cu ast d hd
      simp only [allCalls, List.take, List.mem_cons, List.not_mem_nil, or_false] at hmem
      rcases hmem with rfl | rfl | rfl | rfl | rfl | rfl <;> simp [tentativeNames]
    have hflag : GoMap.flag (afterInit T U cu ast libs).libNotUsed d.1 = false := by
      rw [flag_afterInit]
      simp [hname]
    simp [hflag]



/-! ## Scenarios -/

theorem redirect_nil (id : String) : redirect [] id = id := rfl

theorem forEachWhile_true {α : Type} (svcs : List parser.Service) (g : parser.Service → α → α)
    (a : α) : forEachWhile svcs (fun svc n => (g svc n, true)) a = svcs.foldl (fun n svc => g svc n) a := by
  induction svcs generalizing a with
  | nil => rfl
  | cons svc t ih => simp [forEachWhile, ih]

theorem structCount_eq (ast : parser.Thrift) :
    structCount ast
      = (ast.GetStructLikes.length : Int)
        + (ast.Services.map (fun svc => (svc.Functions.length : Int))).sum := by
  unfold structCount parser.Thrift.ForEachService
  rw [forEachWhile_true ast.Services (fun svc n => n + (svc.Functions.length : Int))]
  generalize (ast.GetStructLikes.length : Int) = n
  induction ast.Services generalizing n with
  | nil => simp
  | cons svc t ih =>
    rw [List.foldl_cons, ih]
    simp only [List.map_cons, List.sum_cons]
    ring

/-- C2 (scenario B): with an empty replacement table, for every document with at
least one struct-like, `DefinitionOnly` off and `GenDeepEqual` on, after `init` and
the one confirmation `UseStdLibrary "strings"`, the map that `ResolveImports`
returns has entries for `"fmt"`, `DefaultThriftLib` and `"strings"` and none for
`"bytes"`. The constants `DefaultThriftLib` and `DefaultUnknownLib` are parameters,
taken to differ from the path `"bytes"`. -/
theorem scenario_B (DefaultThriftLib DefaultUnknownLib : String) (cu : CodeUtils)
    (ast : parser.Thrift) (hrep : cu.importReplace = [])
    (hstruct : ast.GetStructLikes.length > 0)
    (hdef : cu.features.DefinitionOnly = false) (hdeep : cu.features.GenDeepEqual = true)
    (hT : DefaultThriftLib ≠ "bytes") (hU : DefaultUnknownLib ≠ "bytes") :
    ∃ m, ((importManager.init DefaultThriftLib DefaultUnknownLib
            (newImportManager NamespaceService) cu ast).UseStdLibrary "strings").ResolveImports
          NamespaceService.impl = some (m, none)
      ∧ GoMap.lookup m "fmt" ≠ none
      ∧ GoMap.lookup m DefaultThriftLib ≠ none
      ∧ GoMap.lookup m "strings" ≠ none
      ∧ GoMap.lookup m "bytes" = none := by
  refine ⟨_, ResolveImports_afterInit DefaultThriftLib DefaultUnknownLib cu ast ["strings"],
    ?_, ?_, ?_, ?_⟩
  · have hmem : ("fmt", "fmt") ∈ shapeCalls DefaultThriftLib DefaultUnknownLib cu ast := by
      simp [shapeCalls, structCalls, hstruct]
    have := entry_of_shapeCall _ _ cu ast ["strings"] _ hmem
    rwa [hrep] at this
  · have hmem : ("thrift", DefaultThriftLib)
        ∈ shapeCalls DefaultThriftLib DefaultUnknownLib cu ast := by
      simp [shapeCalls, structCalls, hstruct, hdef]
    have := entry_of_shapeCall _ _ cu ast ["strings"] _ hmem
    rwa [hrep] at this
  · apply entry_afterInit
    · refine ⟨("strings", "strings"), ?_, by rw [hrep]; rfl⟩
      simp [initCalls, tentativeCalls, CodeUtils.Features, hdeep]
    · intro c hc hp
      rw [hrep, redirect_nil] at hp
      have hmem := initCalls_subset _ _ cu ast c hc
      simp only [allCalls, List.mem_cons, List.not_mem_nil, or_false] at hmem
      rcases hmem with rfl | rfl | rfl | rfl | rfl | rfl | rfl | rfl | rfl <;>
        simp [tentativeNames] at hp ⊢
  · apply no_entry_afterInit
    intro c hc hp
    rw [hrep, redirect_nil] at hp
    have hmem := initCalls_subset _ _ cu ast c hc
    simp only [allCalls, List.mem_cons, List.not_mem_nil, or_false] at hmem
    rcases hmem with rfl | rfl | rfl | rfl | rfl | rfl | rfl | rfl | rfl <;>
      first
        | exact absurd hp hT
        | exact absurd hp hU
        | simp [tentativeNames] at hp ⊢



theorem scenario_B_witness :
    ∃ m, ((importManager.init sampleThriftLib sampleUnknownLib
            (newImportManager NamespaceService)
            { features := deepEqualOnly, importReplace := [] } oneStruct).UseStdLibrary
              "strings").ResolveImports NamespaceService.impl = some (m, none)
      ∧ GoMap.lookup m "fmt" ≠ none
      ∧ GoMap.lookup m sampleThriftLib ≠ none
      ∧ GoMap.lookup m "strings" ≠ none
      ∧ GoMap.lookup m "bytes" = none :=
  scenario_B sampleThriftLib sampleUnknownLib
    { features := deepEqualOnly, importReplace := [] } oneStruct rfl (by decide) rfl rfl
    (by decide) (by decide)

/-- C8 (scenario D): for the replacement table whose only entry maps
`DefaultThriftLib` to a path `P ≠ DefaultThriftLib`, for every document with at
least one struct-like and `DefinitionOnly` off, whatever the other flags and the
confirmations, the map that `ResolveImports` returns after `init` has an entry for
`P` and none for `DefaultThriftLib`. -/
theorem scenario_D (DefaultThriftLib DefaultUnknownLib P : String) (cu : CodeUtils)
    (ast : parser.Thrift) (libs : List String)
    (hrep : cu.importReplace = [(DefaultThriftLib, P)]) (hP : P ≠ DefaultThriftLib)
    (hstruct : ast.GetStructLikes.length > 0)
    (hdef : cu.features.DefinitionOnly = false) :
    ∃ m, (useAll (importManager.init DefaultThriftLib DefaultUnknownLib
            (newImportManager NamespaceService) cu ast) libs).ResolveImports
          NamespaceService.impl = some (m, none)
      ∧ GoMap.lookup m P ≠ none
      ∧ GoMap.lookup m DefaultThriftLib = none := by
  refine ⟨_, ResolveImports_afterInit DefaultThriftLib DefaultUnknownLib cu ast libs, ?_, ?_⟩
  · have hmem : ("thrift", DefaultThriftLib)
        ∈ shapeCalls DefaultThriftLib DefaultUnknownLib cu ast := by
      simp [shapeCalls, structCalls, hstruct, hdef]
    have hentry := entry_of_shapeCall _ _ cu ast libs _ hmem
    have hred : redirect cu.importReplace DefaultThriftLib = P := by
      rw [hrep]
      simp [redirect, idHijack.get, GoMap.lookup, List.lookup]
    rwa [hred] at hentry
  · apply no_entry_afterInit
    intro c _ hp
    exfalso
    rw [hrep] at hp
    by_cases hc : c.2 = DefaultThriftLib
    · have hb : (c.2 == DefaultThriftLib) = true := by simpa using hc
      simp only [redirect, idHijack.get, GoMap.lookup, List.lookup, hb] at hp
      exact hP hp
    · have hb : (c.2 == DefaultThriftLib) = false := by simpa using hc
      simp only [redirect, idHijack.get, GoMap.lookup, List.lookup, hb] at hp
      exact hc hp

theorem scenario_D_witness :
    ∃ m, (useAll (importManager.init sampleThriftLib sampleUnknownLib
            (newImportManager NamespaceService)
            { features := deepEqualOnly, importReplace := [(sampleThriftLib, "example.com/fork/thrift")] }
            oneStruct) ["bytes"]).ResolveImports NamespaceService.impl = some (m, none)
      ∧ GoMap.lookup m "example.com/fork/thrift" ≠ none
      ∧ GoMap.lookup m sampleThriftLib = none :=
  scenario_D sampleThriftLib sampleUnknownLib "example.com/fork/thrift"
    { features := deepEqualOnly, importReplace := [(sampleThriftLib, "example.com/fork/thrift")] }
    oneStruct ["bytes"] rfl (by decide) (by decide) rfl

/-- C10 (scenario C): with an empty replacement table, for every document with no
enum and no struct-like whose services all have no function and one of which has no
base service, with `DefinitionOnly` off, whatever the other flags and the
confirmations, the map that `ResolveImports` returns after `init` has entries for
`DefaultThriftLib` and `"context"` and none for `"fmt"`. The constant
`DefaultThriftLib` is a parameter, taken to differ from the path `"fmt"`. -/
theorem scenario_C (DefaultThriftLib DefaultUnknownLib : String) (cu : CodeUtils)
    (ast : parser.Thrift) (libs : List String) (hrep : cu.importReplace = [])
    (henum : ast.Enums.length = 0) (hstruct : ast.GetStructLikes.length = 0)
    (hfun : ∀ svc ∈ ast.Services, svc.Functions.length = 0)
    (hbase : ∃ svc ∈ ast.Services, svc.Extends = "")
    (hdef : cu.features.DefinitionOnly = false) (hT : DefaultThriftLib ≠ "fmt") :
    ∃ m, (useAll (importManager.init DefaultThriftLib DefaultUnknownLib
            (newImportManager NamespaceService) cu ast) libs).ResolveImports
          NamespaceService.impl = some (m, none)
      ∧ GoMap.lookup m DefaultThriftLib ≠ none
      ∧ GoMap.lookup m "context" ≠ none
      ∧ GoMap.lookup m "fmt" = none := by
  obtain ⟨svc0, hsvc0, hext⟩ := hbase
  have hne : ast.Services.length > 0 := List.length_pos_of_mem hsvc0
  refine ⟨_, ResolveImports_afterInit DefaultThriftLib DefaultUnknownLib cu ast libs,
    ?_, ?_, ?_⟩
  · have hmem : ("thrift", DefaultThriftLib)
        ∈ shapeCalls DefaultThriftLib DefaultUnknownLib cu ast := by
      simp [shapeCalls, servicesCalls, hne, hdef]
    have := entry_of_shapeCall _ _ cu ast libs _ hmem
    rwa [hrep] at this
  · have hmem : ("context", "context")
        ∈ shapeCalls DefaultThriftLib DefaultUnknownLib cu ast := by
      simp only [shapeCalls, servicesCalls, hne, if_true, List.mem_append, List.mem_flatMap]
      left; right; right
      exact ⟨svc0, hsvc0, by simp [serviceCalls, hext]⟩
    have := entry_of_shapeCall _ _ cu ast libs _ hmem
    rwa [hrep] at this
  · apply no_entry_afterInit
    intro c hc hp
    exfalso
    rw [hrep, redirect_nil] at hp
    have hcount : structCount ast = 0 := by
      rw [structCount_eq, hstruct]
      have hzero : ast.Services.map (fun svc => (svc.Functions.length : Int))
          = ast.Services.map (fun _ => (0 : Int)) :=
        List.map_congr_left (fun svc hsvc => by simp [hfun svc hsvc])
      rw [hzero]
      simp
    simp only [initCalls, shapeCalls, enumCalls, structCalls, servicesCalls, unknownCalls,
      tentativeCalls, henum, hstruct, hcount, hne, lt_self_iff_false, gt_iff_lt, false_and,
      if_false, if_true, List.append_nil, List.nil_append, List.mem_append,
      List.mem_flatMap] at hc
    rcases hc with (h | ⟨svc, hsvc, h⟩) | h
    · split_ifs at h
      · simp only [List.mem_singleton] at h
        subst h
        exact hT hp
      · cases h
    · simp only [serviceCalls, hfun svc hsvc, lt_self_iff_false, gt_iff_lt, or_false,
        if_false, List.append_nil] at h
      split_ifs at h
      · simp only [List.mem_singleton] at h
        subst h
        simp at hp
      · cases h
    · split_ifs at h <;>
        simp only [List.mem_cons, List.mem_singleton, List.not_mem_nil, or_false] at h
      · rcases h with rfl | rfl <;> simp at hp
      · subst h
        simp at hp

theorem scenario_C_witness :
    ∃ m, (useAll (importManager.init sampleThriftLib sampleUnknownLib
            (newImportManager NamespaceService)
            { features := deepEqualOnly, importReplace := [] } oneBareService)
            ["strings"]).ResolveImports NamespaceService.impl = some (m, none)
      ∧ GoMap.lookup m sampleThriftLib ≠ none
      ∧ GoMap.lookup m "context" ≠ none
      ∧ GoMap.lookup m "fmt" = none :=
  scenario_C sampleThriftLib sampleUnknownLib
    { features := deepEqualOnly, importReplace := [] } oneBareService ["strings"] rfl rfl rfl
    (by decide) (by decide) rfl (by decide)



/-! ## Tentative libraries -/

/-- With an empty replacement table and constants that are not the path of a
library held as not used, `init` leaves such a library that it registers under its
own name. -/
theorem get_tentative_of_empty_table (T U : String) (cu : CodeUtils) (ast : parser.Thrift)
    (k : String) (hrep : cu.importReplace = []) (hk : k ∈ tentativeNames)
    (hT : T ≠ k) (hU : U ≠ k) (hreg : (k, k) ∈ initCalls T U cu ast) :
    idHijack.Get NamespaceService.impl
      { Namespace := { rename := zeroIndexRename, ids := initIds T U cu ast }
        replacement := cu.importReplace } k = k := by
  show (GoMap.lookup (initIds T U cu ast) (redirect cu.importReplace k)).getD "" = k
  rw [lookup_initIds, hrep, redirect_nil]
  rcases first_call_spec (initCalls T U cu ast) [] k with ⟨_, hno⟩ | ⟨c, hc, hp, hfirst⟩
  · exact absurd (redirect_nil k) (hno (k, k) hreg)
  · rw [hfirst]
    rw [redirect_nil] at hp
    have hmem := initCalls_subset T U cu ast c hc
    simp only [allCalls, List.mem_cons, List.not_mem_nil, or_false] at hmem
    simp only [tentativeNames, List.mem_cons, List.not_mem_nil, or_false] at hk
    rcases hmem with rfl | rfl | rfl | rfl | rfl | rfl | rfl | rfl | rfl <;>
      first
        | exact absurd hp hT
        | exact absurd hp hU
        | (simp only at hp; subst hp; first | rfl | simp at hk)

/-- C1, as amended (tentative suppression): after `init` and any sequence of
`UseStdLibrary` calls that never names `k`, one of `"strings"`, `"bytes"`,
`"reflect"`, if the namespace holds the path of `k` (the key `k` after replacement)
under the name `k` itself, that is `Get k = k`, then the map that `ResolveImports`
returns has no entry for that path. -/
theorem tentative_suppression (DefaultThriftLib DefaultUnknownLib : String) (cu : CodeUtils)
    (ast : parser.Thrift) (libs : List String) (k : String)
    (h : idHijack NamespaceService)
    (hk : k ∈ tentativeNames) (hlibs : k ∉ libs)
    (hns : (importManager.init DefaultThriftLib DefaultUnknownLib
              (newImportManager NamespaceService) cu ast).Namespace = some h)
    (hget : idHijack.Get NamespaceService.impl h k = k) :
    ∃ m, (useAll (importManager.init DefaultThriftLib DefaultUnknownLib
            (newImportManager NamespaceService) cu ast) libs).ResolveImports
          NamespaceService.impl = some (m, none)
      ∧ GoMap.lookup m (h.get k) = none := by
  refine ⟨_, ResolveImports_afterInit DefaultThriftLib DefaultUnknownLib cu ast libs, ?_⟩
  rw [init_eq] at hns
  simp only [Option.some.injEq] at hns
  subst hns
  have hne : k ≠ "" := by
    simp only [tentativeNames, List.mem_cons, List.not_mem_nil, or_false] at hk
    rcases hk with rfl | rfl | rfl <;> decide
  have hlook : GoMap.lookup (initIds DefaultThriftLib DefaultUnknownLib cu ast)
      (redirect cu.importReplace k) = some k := by
    have hget' : (GoMap.lookup (initIds DefaultThriftLib DefaultUnknownLib cu ast)
        (redirect cu.importReplace k)).getD "" = k := hget
    cases hl : GoMap.lookup (initIds DefaultThriftLib DefaultUnknownLib cu ast)
        (redirect cu.importReplace k) with
    | none => rw [hl] at hget'; exact absurd hget'.symm hne
    | some a => rw [hl] at hget'; exact congrArg some hget'
  show GoMap.lookup (initImports DefaultThriftLib DefaultUnknownLib cu ast libs)
    (redirect cu.importReplace k) = none
  rw [lookup_initImports, hlook]
  simp [flag_afterInit, hk, hlibs]

theorem tentative_suppression_witness :
    ∃ m, (useAll (importManager.init sampleThriftLib sampleUnknownLib
            (newImportManager NamespaceService)
            { features := deepEqualOnly, importReplace := [] } oneStruct)
            ["strings"]).ResolveImports NamespaceService.impl = some (m, none)
      ∧ GoMap.lookup m "bytes" = none :=
  tentative_suppression sampleThriftLib sampleUnknownLib
    { features := deepEqualOnly, importReplace := [] } oneStruct ["strings"] "bytes"
    { Namespace := { rename := zeroIndexRename,
                     ids := initIds sampleThriftLib sampleUnknownLib
                       { features := deepEqualOnly, importReplace := [] } oneStruct }
      replacement := [] }
    (by decide) (by decide) (init_eq _ _ _ _ _ ▸ rfl)
    (get_tentative_of_empty_table sampleThriftLib sampleUnknownLib
      { features := deepEqualOnly, importReplace := [] } oneStruct "bytes" rfl
      (by decide) (by decide) (by decide) (by decide))

/-- C1 fails as stated: with the replacement table that sends `"fmt"` to
`"strings"`, a document with one enum and `GenDeepEqual` set, `init` registers
`"strings"`, no `UseStdLibrary` call is made, and the map that `ResolveImports`
returns has the entry `"strings" ↦ "fmt"` for the path of `"strings"`. -/
theorem tentative_suppression_counterexample :
    ("strings", "strings") ∈ initCalls sampleThriftLib sampleUnknownLib
        { features := deepEqualOnly, importReplace := fmtToStrings } oneEnum
    ∧ redirect fmtToStrings "strings" = "strings"
    ∧ (importManager.init sampleThriftLib sampleUnknownLib (newImportManager NamespaceService)
          { features := deepEqualOnly, importReplace := fmtToStrings }
          oneEnum).ResolveImports NamespaceService.impl
        = some ([("strings", "fmt")], none)
    ∧ GoMap.lookup [("strings", "fmt")] (redirect fmtToStrings "strings") = some "fmt" := by
  refine ⟨by decide, by decide, by decide, by decide⟩



/-! ## Replacement -/

/-- C4, as amended (replacement transparency): for a replacement table that has an
entry `K → K'` where `K'` has no replacement other than itself (`get K' = K'`),
`idHijack.Add name K` returns the alias and leaves the redirector that
`idHijack.Add name K'` through the same redirector does, from every starting
state, so that `ResolveImports` returns the same import map after either. -/
theorem replacement_transparency {σ : Type} (N : Golang.Namespace σ) (h : idHijack σ)
    (name K K' : String) (hrep : GoMap.lookup h.replacement K = some K')
    (hfix : h.get K' = K') :
    idHijack.Add N h name K = idHijack.Add N h name K'
    ∧ (managerOf (idHijack.Add N h name K).2).ResolveImports N
        = (managerOf (idHijack.Add N h name K').2).ResolveImports N := by
  have hK : h.get K = K' := by
    unfold idHijack.get
    rw [hrep]
  have hadd : idHijack.Add N h name K = idHijack.Add N h name K' := by
    unfold idHijack.Add
    rw [hK, hfix]
  exact ⟨hadd, by rw [hadd]⟩

theorem replacement_transparency_witness :
    idHijack.Add NamespaceService.impl
        { Namespace := NewNamespace zeroIndexRename
          replacement := [(sampleThriftLib, "example.com/fork/thrift")] }
        "thrift" sampleThriftLib
      = idHijack.Add NamespaceService.impl
        { Namespace := NewNamespace zeroIndexRename
          replacement := [(sampleThriftLib, "example.com/fork/thrift")] }
        "thrift" "example.com/fork/thrift"
    ∧ (managerOf (idHijack.Add NamespaceService.impl
        { Namespace := NewNamespace zeroIndexRename
          replacement := [(sampleThriftLib, "example.com/fork/thrift")] }
        "thrift" sampleThriftLib).2).ResolveImports NamespaceService.impl
      = (managerOf (idHijack.Add NamespaceService.impl
        { Namespace := NewNamespace zeroIndexRename
          replacement := [(sampleThriftLib, "example.com/fork/thrift")] }
        "thrift" "example.com/fork/thrift").2).ResolveImports NamespaceService.impl :=
  replacement_transparency NamespaceService.impl
    { Namespace := NewNamespace zeroIndexRename
      replacement := [(sampleThriftLib, "example.com/fork/thrift")] }
    "thrift" sampleThriftLib "example.com/fork/thrift" (by decide) (by decide)

/-- C4 fails as stated: in the table `chainedTable` the key of the thrift library has
the entry `K → K'` with `K'` the fork's path, and `K'` has an entry of its own.
From the empty namespace, registering `("thrift", K)` through the redirector gives
the import map with the fork's path, and registering `("thrift", K')` through the
same redirector gives the import map with the mirror's path. -/
theorem replacement_transparency_counterexample :
    GoMap.lookup chainedTable sampleThriftLib = some "example.com/fork/thrift"
    ∧ (managerOf (idHijack.Add NamespaceService.impl
          { Namespace := NewNamespace zeroIndexRename, replacement := chainedTable }
          "thrift" sampleThriftLib).2).ResolveImports NamespaceService.impl
        = some ([("example.com/fork/thrift", "")], none)
    ∧ (managerOf (idHijack.Add NamespaceService.impl
          { Namespace := NewNamespace zeroIndexRename, replacement := chainedTable }
          "thrift" "example.com/fork/thrift").2).ResolveImports NamespaceService.impl
        = some ([("example.com/mirror/thrift", "")], none)
    ∧ (managerOf (idHijack.Add NamespaceService.impl
          { Namespace := NewNamespace zeroIndexRename, replacement := chainedTable }
          "thrift" sampleThriftLib).2).ResolveImports NamespaceService.impl
        ≠ (managerOf (idHijack.Add NamespaceService.impl
          { Namespace := NewNamespace zeroIndexRename, replacement := chainedTable }
          "thrift" "example.com/fork/thrift").2).ResolveImports NamespaceService.impl := by
  refine ⟨by decide, by decide, by decide, by decide⟩

/-! ## Examples for the general statements -/

theorem confirmation_monotone_witness :
    GoMap.lookup
        (useAll ((afterInit sampleThriftLib sampleUnknownLib
          { features := deepEqualOnly, importReplace := [] } oneStruct []).UseStdLibrary
            "strings") ["bytes"]).libNotUsed "strings" = none
    ∧ ∃ m1 m2,
        ((afterInit sampleThriftLib sampleUnknownLib
          { features := deepEqualOnly, importReplace := [] } oneStruct []).UseStdLibrary
            "strings").ResolveImports NamespaceService.impl = some (m1, none)
        ∧ (useAll ((afterInit sampleThriftLib sampleUnknownLib
            { features := deepEqualOnly, importReplace := [] } oneStruct []).UseStdLibrary
              "strings") ["bytes"]).ResolveImports NamespaceService.impl = some (m2, none)
        ∧ ∀ p v, GoMap.lookup m1 p = some v → GoMap.lookup m2 p = some v :=
  confirmation_monotone NamespaceService.impl
    (afterInit sampleThriftLib sampleUnknownLib
      { features := deepEqualOnly, importReplace := [] } oneStruct [])
    _ "strings" ["bytes"]
    (afterInit_Namespace sampleThriftLib sampleUnknownLib
      { features := deepEqualOnly, importReplace := [] } oneStruct [])
    (init_distinctIds sampleThriftLib sampleUnknownLib
      { features := deepEqualOnly, importReplace := [] } oneStruct)

theorem ResolveImports_elides_final_segment_witness :
    "thrift" = lastSegment sampleThriftLib
    ∧ ∃ m, (afterInit sampleThriftLib sampleUnknownLib
          { features := deepEqualOnly, importReplace := [] } oneStruct []).ResolveImports
            NamespaceService.impl = some (m, none)
        ∧ GoMap.lookup m sampleThriftLib = some "" :=
  ⟨by decide,
   ResolveImports_elides_final_segment NamespaceService.impl
    (afterInit sampleThriftLib sampleUnknownLib
      { features := deepEqualOnly, importReplace := [] } oneStruct [])
    _ "thrift" sampleThriftLib
    (afterInit_Namespace sampleThriftLib sampleUnknownLib
      { features := deepEqualOnly, importReplace := [] } oneStruct [])
    (init_distinctIds sampleThriftLib sampleUnknownLib
      { features := deepEqualOnly, importReplace := [] } oneStruct)
    (by decide) (by decide) (by decide)⟩



/-! ## Which calls `init` makes -/

theorem init_Namespace (T U : String) (im : importManager NamespaceService) (cu : CodeUtils)
    (ast : parser.Thrift) :
    (importManager.init T U im cu ast).Namespace
      = some (runCalls cu.importReplace (initCalls T U cu ast)) := by
  rw [init_eq_foldl]
  rfl

theorem mem_enumCalls (cu : CodeUtils) (ast : parser.Thrift) (c : String × String) :
    c ∈ enumCalls cu ast ↔
      ast.Enums.length > 0 ∧
        (c = ("fmt", "fmt") ∨ (cu.features.ScanValueForEnum = true ∧
          (c = ("driver", "database/sql/driver") ∨ c = ("sql", "database/sql")))) := by
  unfold enumCalls CodeUtils.Features
  split_ifs <;> simp_all

theorem mem_structCalls (T : String) (cu : CodeUtils) (ast : parser.Thrift)
    (c : String × String) :
    c ∈ structCalls T cu ast ↔
      ast.GetStructLikes.length > 0 ∧
        (c = ("fmt", "fmt") ∨ (cu.features.DefinitionOnly = false ∧ c = ("thrift", T))) := by
  unfold structCalls
  split_ifs with h1 h2 <;> simp_all

theorem mem_serviceCalls (svc : parser.Service) (c : String × String) :
    c ∈ serviceCalls svc ↔
      ((svc.Extends = "" ∨ svc.Functions.length > 0) ∧ c = ("context", "context"))
        ∨ (svc.Functions.length > 0 ∧ c = ("fmt", "fmt")) := by
  unfold serviceCalls
  by_cases he : svc.Extends = "" <;> by_cases hf : svc.Functions.length > 0 <;>
    simp [he, hf]

theorem mem_servicesCalls (T : String) (cu : CodeUtils) (ast : parser.Thrift)
    (c : String × String) :
    c ∈ servicesCalls T cu ast ↔
      (ast.Services.length > 0 ∧ cu.features.DefinitionOnly = false ∧ c = ("thrift", T))
        ∨ ∃ svc ∈ ast.Services, c ∈ serviceCalls svc := by
  unfold servicesCalls
  by_cases h1 : ast.Services.length > 0
  · rw [if_pos h1]
    simp only [List.mem_append, List.mem_flatMap, h1, true_and]
    split_ifs with h2 <;> simp_all
  · rw [if_neg h1]
    have hnil : ast.Services = [] := by
      cases hs : ast.Services with
      | nil => rfl
      | cons a t => rw [hs] at h1; simp at h1
    simp [h1, hnil]

theorem mem_unknownCalls (U : String) (cu : CodeUtils) (ast : parser.Thrift)
    (c : String × String) :
    c ∈ unknownCalls U cu ast ↔
      structCount ast > 0 ∧ cu.features.KeepUnknownFields = true ∧ c = ("unknown", U) := by
  unfold unknownCalls CodeUtils.Features
  split_ifs with h1
  · simp [h1.1, h1.2]
  · simp only [List.not_mem_nil, false_iff]
    rintro ⟨h2, h3, _⟩
    exact h1 ⟨h2, h3⟩

theorem mem_tentativeCalls (cu : CodeUtils) (c : String × String) :
    c ∈ tentativeCalls cu ↔
      (cu.features.GenDeepEqual = true ∧ (c = ("strings", "strings") ∨ c = ("bytes", "bytes")))
        ∨ (cu.features.GenDeepEqual = false ∧ cu.features.ValidateSet = true
            ∧ c = ("reflect", "reflect")) := by
  unfold tentativeCalls CodeUtils.Features
  split_ifs with h1 h2 <;> simp_all

theorem mem_initCalls (T U : String) (cu : CodeUtils) (ast : parser.Thrift)
    (c : String × String) :
    c ∈ initCalls T U cu ast ↔
      c ∈ enumCalls cu ast ∨ c ∈ structCalls T cu ast ∨ c ∈ servicesCalls T cu ast
        ∨ c ∈ unknownCalls U cu ast ∨ c ∈ tentativeCalls cu := by
  simp only [initCalls, shapeCalls, List.mem_append, or_assoc]


theorem length_pos_of_mem_services (ast : parser.Thrift) (svc : parser.Service)
    (hsvc : svc ∈ ast.Services) : ast.Services.length > 0 :=
  List.length_pos_of_mem hsvc

/-- C12 (serialization-runtime rule): the calls of `init` are `initCalls`, and among
them is the call `ns.Add("thrift", DefaultThriftLib)` if and only if
`DefinitionOnly` is off and the document has a struct-like or a service; so a
document with only enums has no such call. -/
theorem thrift_registration_rule (DefaultThriftLib DefaultUnknownLib : String)
    (im : importManager NamespaceService) (cu : CodeUtils) (ast : parser.Thrift) :
    (importManager.init DefaultThriftLib DefaultUnknownLib im cu ast).Namespace
        = some (runCalls cu.importReplace (initCalls DefaultThriftLib DefaultUnknownLib cu ast))
    ∧ (("thrift", DefaultThriftLib) ∈ initCalls DefaultThriftLib DefaultUnknownLib cu ast ↔
        cu.features.DefinitionOnly = false
          ∧ (ast.GetStructLikes.length > 0 ∨ ast.Services.length > 0))
    ∧ (ast.GetStructLikes.length = 0 → ast.Services.length = 0 →
        ("thrift", DefaultThriftLib) ∉ initCalls DefaultThriftLib DefaultUnknownLib cu ast) := by
  have hiff : ("thrift", DefaultThriftLib) ∈ initCalls DefaultThriftLib DefaultUnknownLib cu ast ↔
      cu.features.DefinitionOnly = false
        ∧ (ast.GetStructLikes.length > 0 ∨ ast.Services.length > 0) := by
    simp only [mem_initCalls, mem_enumCalls, mem_structCalls, mem_servicesCalls,
      mem_serviceCalls, mem_unknownCalls, mem_tentativeCalls, Prod.mk.injEq]
    constructor
    · rintro (h | h | h | h | h)
      · simp at h
      · rcases h with ⟨hs, h | ⟨hd, _⟩⟩
        · simp at h
        · exact ⟨hd, Or.inl hs⟩
      · rcases h with ⟨hs, hd, _⟩ | ⟨svc, _, h⟩
        · exact ⟨hd, Or.inr hs⟩
        · simp at h
      · simp at h
      · simp at h
    · rintro ⟨hd, hs | hs⟩
      · exact Or.inr (Or.inl ⟨hs, Or.inr ⟨hd, by simp⟩⟩)
      · exact Or.inr (Or.inr (Or.inl (Or.inl ⟨hs, hd, by simp⟩)))
  refine ⟨init_Namespace _ _ im cu ast, hiff, ?_⟩
  intro h1 h2 hmem
  rcases (hiff.1 hmem).2 with h | h
  · rw [h1] at h; exact absurd h (by decide)
  · rw [h2] at h; exact absurd h (by decide)

theorem thrift_registration_rule_witness :
    ("thrift", sampleThriftLib) ∉ initCalls sampleThriftLib sampleUnknownLib
      { features := deepEqualOnly, importReplace := [] } oneEnum :=
  (thrift_registration_rule sampleThriftLib sampleUnknownLib (newImportManager NamespaceService)
    { features := deepEqualOnly, importReplace := [] } oneEnum).2.2 rfl rfl


theorem context_call_iff (T U : String) (cu : CodeUtils) (ast : parser.Thrift) :
    ("context", "context") ∈ initCalls T U cu ast ↔
      ∃ svc ∈ ast.Services, svc.Extends = "" ∨ svc.Functions.length > 0 := by
  simp only [mem_initCalls, mem_enumCalls, mem_structCalls, mem_servicesCalls,
    mem_serviceCalls, mem_unknownCalls, mem_tentativeCalls, Prod.mk.injEq]
  constructor
  · rintro (h | h | h | h | h)
    · simp at h
    · simp at h
    · rcases h with h | ⟨svc, hsvc, h⟩
      · simp at h
      · rcases h with ⟨h, _⟩ | h
        · exact ⟨svc, hsvc, h⟩
        · simp at h
    · simp at h
    · simp at h
  · rintro ⟨svc, hsvc, h⟩
    exact Or.inr (Or.inr (Or.inl (Or.inr ⟨svc, hsvc, Or.inl ⟨h, by simp⟩⟩)))

theorem fmt_call_iff (T U : String) (cu : CodeUtils) (ast : parser.Thrift) :
    ("fmt", "fmt") ∈ initCalls T U cu ast ↔
      ast.Enums.length > 0 ∨ ast.GetStructLikes.length > 0
        ∨ ∃ svc ∈ ast.Services, svc.Functions.length > 0 := by
  simp only [mem_initCalls, mem_enumCalls, mem_structCalls, mem_servicesCalls,
    mem_serviceCalls, mem_unknownCalls, mem_tentativeCalls, Prod.mk.injEq]
  constructor
  · rintro (h | h | h | h | h)
    · exact Or.inl h.1
    · exact Or.inr (Or.inl h.1)
    · rcases h with h | ⟨svc, hsvc, h⟩
      · simp at h
      · rcases h with h | ⟨h, _⟩
        · simp at h
        · exact Or.inr (Or.inr ⟨svc, hsvc, h⟩)
    · simp at h
    · simp at h
  · rintro (h | h | ⟨svc, hsvc, h⟩)
    · exact Or.inl ⟨h, Or.inl (by simp)⟩
    · exact Or.inr (Or.inl ⟨h, Or.inl (by simp)⟩)
    · exact Or.inr (Or.inr (Or.inl (Or.inr ⟨svc, hsvc, Or.inr ⟨h, by simp⟩⟩)))

/-- C13, as amended (per-service rule): the calls of `init` are `initCalls`; among
them is `ns.Add("context", "context")` if and only if some service has no base
service or has a function, and `ns.Add("fmt", "fmt")` if and only if the document
has an enum, a struct-like or a service with a function. So a document with no
enum and no struct-like whose only service extends a base service and has no
function has neither call. -/
theorem per_service_rule (DefaultThriftLib DefaultUnknownLib : String)
    (im : importManager NamespaceService) (cu : CodeUtils) (ast : parser.Thrift) :
    (importManager.init DefaultThriftLib DefaultUnknownLib im cu ast).Namespace
        = some (runCalls cu.importReplace (initCalls DefaultThriftLib DefaultUnknownLib cu ast))
    ∧ (("context", "context") ∈ initCalls DefaultThriftLib DefaultUnknownLib cu ast ↔
        ∃ svc ∈ ast.Services, svc.Extends = "" ∨ svc.Functions.length > 0)
    ∧ (("fmt", "fmt") ∈ initCalls DefaultThriftLib DefaultUnknownLib cu ast ↔
        ast.Enums.length > 0 ∨ ast.GetStructLikes.length > 0
          ∨ ∃ svc ∈ ast.Services, svc.Functions.length > 0)
    ∧ ∀ svc : parser.Service, ast.Services = [svc] → svc.Extends ≠ "" →
        svc.Functions.length = 0 → ast.Enums.length = 0 → ast.GetStructLikes.length = 0 →
        ("context", "context") ∉ initCalls DefaultThriftLib DefaultUnknownLib cu ast
          ∧ ("fmt", "fmt") ∉ initCalls DefaultThriftLib DefaultUnknownLib cu ast := by
  refine ⟨init_Namespace _ _ im cu ast, context_call_iff _ _ cu ast, fmt_call_iff _ _ cu ast, ?_⟩
  intro svc hsvc hext hfun henum hstruct
  rw [context_call_iff, fmt_call_iff, hsvc, henum, hstruct]
  constructor
  · rintro ⟨s, hs, h⟩
    rw [List.mem_singleton] at hs
    subst hs
    rcases h with h | h
    · exact hext h
    · rw [hfun] at h; exact absurd h (by decide)
  · rintro (h | h | ⟨s, hs, h⟩)
    · exact absurd h (by decide)
    · exact absurd h (by decide)
    · rw [List.mem_singleton] at hs
      subst hs
      rw [hfun] at h; exact absurd h (by decide)

theorem per_service_rule_witness :
    ("context", "context") ∉ initCalls sampleThriftLib sampleUnknownLib
        { features := deepEqualOnly, importReplace := [] } oneDerivedService
    ∧ ("fmt", "fmt") ∉ initCalls sampleThriftLib sampleUnknownLib
        { features := deepEqualOnly, importReplace := [] } oneDerivedService :=
  (per_service_rule sampleThriftLib sampleUnknownLib (newImportManager NamespaceService)
    { features := deepEqualOnly, importReplace := [] } oneDerivedService).2.2.2
    { Extends := "base.BaseService", Functions := [] } rfl (by decide) rfl rfl rfl

/-- C13 fails as stated: the only service of the document `enumAndDerivedService`
extends a base service and has no function, and `init` makes the call
`ns.Add("fmt", "fmt")` for the enum of the document, after which the namespace
holds the name `"fmt"` for the key `"fmt"`. -/
theorem per_service_rule_counterexample :
    enumAndDerivedService.Services = [{ Extends := "base.BaseService", Functions := [] }]
    ∧ ("context", "context") ∉ initCalls sampleThriftLib sampleUnknownLib
        { features := deepEqualOnly, importReplace := [] } enumAndDerivedService
    ∧ ("fmt", "fmt") ∈ initCalls sampleThriftLib sampleUnknownLib
        { features := deepEqualOnly, importReplace := [] } enumAndDerivedService
    ∧ (importManager.init sampleThriftLib sampleUnknownLib (newImportManager NamespaceService)
        { features := deepEqualOnly, importReplace := [] } enumAndDerivedService).Namespace.map
          (fun h => idHijack.Get NamespaceService.impl h "fmt") = some "fmt" := by
  refine ⟨rfl, by decide, by decide, by decide⟩


theorem structCount_pos_iff (ast : parser.Thrift) :
    structCount ast > 0 ↔
      ast.GetStructLikes.length + (ast.Services.map (fun svc => svc.Functions.length)).sum > 0 := by
  rw [structCount_eq]
  have hcast : (ast.Services.map (fun svc => (svc.Functions.length : Int))).sum
      = (((ast.Services.map (fun svc => svc.Functions.length)).sum : Nat) : Int) := by
    induction ast.Services with
    | nil => simp
    | cons svc t ih => simp only [List.map_cons, List.sum_cons, ih]; push_cast; rfl
  rw [hcast]
  omega

/-- C14 (unknown-fields rule): the calls of `init` are `initCalls`, and among them
is the call `ns.Add("unknown", DefaultUnknownLib)` if and only if
`KeepUnknownFields` is set and the number of struct-likes plus the number of
functions of all services is positive; so a document with no struct-like whose
services, if any, have no function has no such call. The counts are lengths of
lists held in memory, far below the range of a Go `int`. -/
theorem unknown_fields_rule (DefaultThriftLib DefaultUnknownLib : String)
    (im : importManager NamespaceService) (cu : CodeUtils) (ast : parser.Thrift) :
    (importManager.init DefaultThriftLib DefaultUnknownLib im cu ast).Namespace
        = some (runCalls cu.importReplace (initCalls DefaultThriftLib DefaultUnknownLib cu ast))
    ∧ (("unknown", DefaultUnknownLib) ∈ initCalls DefaultThriftLib DefaultUnknownLib cu ast ↔
        cu.features.KeepUnknownFields = true
          ∧ ast.GetStructLikes.length
              + (ast.Services.map (fun svc => svc.Functions.length)).sum > 0)
    ∧ (ast.GetStructLikes.length = 0 → (∀ svc ∈ ast.Services, svc.Functions.length = 0) →
        ("unknown", DefaultUnknownLib) ∉ initCalls DefaultThriftLib DefaultUnknownLib cu ast) := by
  have hiff : ("unknown", DefaultUnknownLib) ∈ initCalls DefaultThriftLib DefaultUnknownLib cu ast ↔
      cu.features.KeepUnknownFields = true
        ∧ ast.GetStructLikes.length
            + (ast.Services.map (fun svc => svc.Functions.length)).sum > 0 := by
    rw [← structCount_pos_iff]
    simp only [mem_initCalls, mem_enumCalls, mem_structCalls, mem_servicesCalls,
      mem_serviceCalls, mem_unknownCalls, mem_tentativeCalls, Prod.mk.injEq]
    constructor
    · rintro (h | h | h | h | h)
      · simp at h
      · simp at h
      · rcases h with h | ⟨svc, _, h⟩ <;> simp at h
      · exact ⟨h.2.1, h.1⟩
      · simp at h
    · rintro ⟨hk, hc⟩
      exact Or.inr (Or.inr (Or.inr (Or.inl ⟨hc, hk, by simp⟩)))
  refine ⟨init_Namespace _ _ im cu ast, hiff, ?_⟩
  intro hstruct hfun hmem
  have hpos := (hiff.1 hmem).2
  have hzero : (ast.Services.map (fun svc => svc.Functions.length)).sum = 0 := by
    rw [List.sum_eq_zero]
    intro x hx
    obtain ⟨svc, hsvc, rfl⟩ := List.mem_map.1 hx
    exact hfun svc hsvc
  rw [hstruct, hzero] at hpos
  exact absurd hpos (by decide)

theorem unknown_fields_rule_witness :
    ("unknown", sampleUnknownLib) ∉ initCalls sampleThriftLib sampleUnknownLib
      { features := { deepEqualOnly with KeepUnknownFields := true }, importReplace := [] }
      oneBareService :=
  (unknown_fields_rule sampleThriftLib sampleUnknownLib (newImportManager NamespaceService)
    { features := { deepEqualOnly with KeepUnknownFields := true }, importReplace := [] }
    oneBareService).2.2 rfl (by decide)

/-- C15 (tentative-registration rule): the calls of `init` are `initCalls`; among
them are `ns.Add("strings", "strings")` and `ns.Add("bytes", "bytes")`, each if and
only if `GenDeepEqual` is set, and `ns.Add("reflect", "reflect")` if and only if
`GenDeepEqual` is not set and `ValidateSet` is set, whatever the document. -/
theorem tentative_registration_rule (DefaultThriftLib DefaultUnknownLib : String)
    (im : importManager NamespaceService) (cu : CodeUtils) (ast : parser.Thrift) :
    (importManager.init DefaultThriftLib DefaultUnknownLib im cu ast).Namespace
        = some (runCalls cu.importReplace (initCalls DefaultThriftLib DefaultUnknownLib cu ast))
    ∧ (("strings", "strings") ∈ initCalls DefaultThriftLib DefaultUnknownLib cu ast ↔
        cu.features.GenDeepEqual = true)
    ∧ (("bytes", "bytes") ∈ initCalls DefaultThriftLib DefaultUnknownLib cu ast ↔
        cu.features.GenDeepEqual = true)
    ∧ (("reflect", "reflect") ∈ initCalls DefaultThriftLib DefaultUnknownLib cu ast ↔
        cu.features.GenDeepEqual = false ∧ cu.features.ValidateSet = true) := by
  refine ⟨init_Namespace _ _ im cu ast, ?_, ?_, ?_⟩ <;>
    simp only [mem_initCalls, mem_enumCalls, mem_structCalls, mem_servicesCalls,
      mem_serviceCalls, mem_unknownCalls, mem_tentativeCalls, Prod.mk.injEq] <;>
    constructor
  · rintro (h | h | h | h | h)
    · simp at h
    · simp at h
    · rcases h with h | ⟨svc, _, h⟩ <;> simp at h
    · simp at h
    · rcases h with ⟨h, _⟩ | h
      · exact h
      · simp at h
  · intro h
    exact Or.inr (Or.inr (Or.inr (Or.inr (Or.inl ⟨h, Or.inl (by simp)⟩))))
  · rintro (h | h | h | h | h)
    · simp at h
    · simp at h
    · rcases h with h | ⟨svc, _, h⟩ <;> simp at h
    · simp at h
    · rcases h with ⟨h, _⟩ | h
      · exact h
      · simp at h
  · intro h
    exact Or.inr (Or.inr (Or.inr (Or.inr (Or.inl ⟨h, Or.inr (by simp)⟩))))
  · rintro (h | h | h | h | h)
    · simp at h
    · simp at h
    · rcases h with h | ⟨svc, _, h⟩ <;> simp at h
    · simp at h
    · rcases h with h | ⟨h1, h2, _⟩
      · simp at h
      · exact ⟨h1, h2⟩
  · rintro ⟨h1, h2⟩
    exact Or.inr (Or.inr (Or.inr (Or.inr (Or.inr ⟨h1, h2, by simp⟩))))



/-! ## Documents with little in them -/

theorem services_eq_nil (ast : parser.Thrift) (hsvc : ast.Services.length = 0) :
    ast.Services = [] :=
  List.length_eq_zero.1 hsvc

theorem servicesCalls_of_no_service (T : String) (cu : CodeUtils) (ast : parser.Thrift)
    (hsvc : ast.Services.length = 0) : servicesCalls T cu ast = [] := by
  unfold servicesCalls
  rw [if_neg (by rw [hsvc]; decide)]

theorem unknownCalls_of_no_function (U : String) (cu : CodeUtils) (ast : parser.Thrift)
    (hstruct : ast.GetStructLikes.length = 0)
    (hfun : ∀ svc ∈ ast.Services, svc.Functions.length = 0) : unknownCalls U cu ast = [] := by
  unfold unknownCalls
  rw [if_neg]
  rintro ⟨hpos, _⟩
  rw [structCount_pos_iff, hstruct] at hpos
  have hzero : (ast.Services.map (fun svc => svc.Functions.length)).sum = 0 := by
    rw [List.sum_eq_zero]
    intro x hx
    obtain ⟨svc, hsvc, rfl⟩ := List.mem_map.1 hx
    exact hfun svc hsvc
  rw [hzero] at hpos
  exact absurd hpos (by decide)

theorem unknownCalls_of_no_service (U : String) (cu : CodeUtils) (ast : parser.Thrift)
    (hstruct : ast.GetStructLikes.length = 0) (hsvc : ast.Services.length = 0) :
    unknownCalls U cu ast = [] := by
  apply unknownCalls_of_no_function U cu ast hstruct
  intro svc hmem
  rw [services_eq_nil ast hsvc] at hmem
  cases hmem

/-- C11 (scenario A): with an empty replacement table, for every document with at
least one enum, no struct-like and no service, with `ScanValueForEnum` off and the
other flags arbitrary, `ResolveImports` right after `init` returns the map whose
only entry is `"fmt" ↦ ""`, and a nil error. -/
theorem scenario_A (DefaultThriftLib DefaultUnknownLib : String) (cu : CodeUtils)
    (ast : parser.Thrift) (hrep : cu.importReplace = [])
    (henum : ast.Enums.length > 0) (hstruct : ast.GetStructLikes.length = 0)
    (hsvc : ast.Services.length = 0) (hscan : cu.features.ScanValueForEnum = false) :
    (importManager.init DefaultThriftLib DefaultUnknownLib
        (newImportManager NamespaceService) cu ast).ResolveImports NamespaceService.impl
      = some ([("fmt", "")], none) := by
  have hcalls : initCalls DefaultThriftLib DefaultUnknownLib cu ast
      = ("fmt", "fmt") :: tentativeCalls cu := by
    unfold initCalls shapeCalls
    rw [servicesCalls_of_no_service _ cu ast hsvc,
      unknownCalls_of_no_service _ cu ast hstruct hsvc]
    have h1 : enumCalls cu ast = [("fmt", "fmt")] := by
      unfold enumCalls CodeUtils.Features
      rw [if_pos henum, hscan]
      rfl
    have h2 : structCalls DefaultThriftLib cu ast = [] := by
      unfold structCalls
      rw [if_neg (by rw [hstruct]; decide)]
    rw [h1, h2]
    rfl
  have hmap : initImports DefaultThriftLib DefaultUnknownLib cu ast [] = [("fmt", "")] := by
    unfold initImports initIds
    rw [hcalls, hrep]
    unfold tentativeCalls CodeUtils.Features
    cases cu.features.GenDeepEqual <;> cases cu.features.ValidateSet <;> rfl
  have hres := ResolveImports_afterInit DefaultThriftLib DefaultUnknownLib cu ast []
  rw [hmap] at hres
  exact hres

theorem scenario_A_witness :
    (importManager.init sampleThriftLib sampleUnknownLib (newImportManager NamespaceService)
        { features := deepEqualOnly, importReplace := [] } oneEnum).ResolveImports
          NamespaceService.impl
      = some ([("fmt", "")], none) :=
  scenario_A sampleThriftLib sampleUnknownLib { features := deepEqualOnly, importReplace := [] }
    oneEnum rfl (by decide) rfl rfl rfl


theorem iteratePairs_skip_all (lib : GoMap Bool) (l : List (String × String)) (m : GoMap String)
    (hskip : ∀ e ∈ l, GoMap.flag lib e.1 = true) :
    iteratePairs l (resolveStep lib) m = m := by
  rw [iteratePairs_resolveStep]
  induction l generalizing m with
  | nil => rfl
  | cons e t ih =>
    rw [List.foldl_cons, resolveStep_fst, if_pos (hskip e (List.mem_cons_self _ _))]
    exact ih m (fun x hx => hskip x (List.mem_cons_of_mem _ hx))

theorem foldl_register_inv (calls : List (String × String)) (ids : GoMap String)
    (all : List (String × String)) (hinv : ∀ e ∈ ids, (e.2, e.1) ∈ all)
    (hsub : ∀ c ∈ calls, c ∈ all) : ∀ e ∈ calls.foldl register ids, (e.2, e.1) ∈ all := by
  induction calls generalizing ids with
  | nil => exact hinv
  | cons c t ih =>
    rw [List.foldl_cons]
    exact ih _ (register_inv ids c all hinv (hsub c (List.mem_cons_self _ _)))
      (fun x hx => hsub x (List.mem_cons_of_mem _ hx))

theorem initCalls_of_empty_document (T U : String) (cu : CodeUtils) (ast : parser.Thrift)
    (henum : ast.Enums.length = 0) (hstruct : ast.GetStructLikes.length = 0)
    (hsvc : ast.Services.length = 0) : initCalls T U cu ast = tentativeCalls cu := by
  unfold initCalls shapeCalls
  rw [servicesCalls_of_no_service _ cu ast hsvc,
    unknownCalls_of_no_service _ cu ast hstruct hsvc]
  have h1 : enumCalls cu ast = [] := by
    unfold enumCalls
    rw [if_neg (by rw [henum]; decide)]
  have h2 : structCalls T cu ast = [] := by
    unfold structCalls
    rw [if_neg (by rw [hstruct]; decide)]
  rw [h1, h2]
  rfl

/-- C16, as amended (empty document): on a document with no enum, no struct-like
and no service, for every feature-flag set and replacement table, the only calls
`ns.Add` of `init` are those of the libraries confirmed later (`"strings"` and
`"bytes"` under `GenDeepEqual`, `"reflect"` under `ValidateSet` alone); with both
flags off the namespace is left with no registration; and in every case
`ResolveImports` right after `init` returns the empty map. -/
theorem empty_document (DefaultThriftLib DefaultUnknownLib : String) (cu : CodeUtils)
    (ast : parser.Thrift) (henum : ast.Enums.length = 0)
    (hstruct : ast.GetStructLikes.length = 0) (hsvc : ast.Services.length = 0) :
    (importManager.init DefaultThriftLib DefaultUnknownLib
        (newImportManager NamespaceService) cu ast).Namespace
      = some (runCalls cu.importReplace (tentativeCalls cu))
    ∧ (cu.features.GenDeepEqual = false → cu.features.ValidateSet = false →
        (importManager.init DefaultThriftLib DefaultUnknownLib
            (newImportManager NamespaceService) cu ast).Namespace
          = some { Namespace := NewNamespace zeroIndexRename, replacement := cu.importReplace })
    ∧ (importManager.init DefaultThriftLib DefaultUnknownLib
        (newImportManager NamespaceService) cu ast).ResolveImports NamespaceService.impl
      = some ([], none) := by
  have hcalls := initCalls_of_empty_document DefaultThriftLib DefaultUnknownLib cu ast
    henum hstruct hsvc
  have hns : (importManager.init DefaultThriftLib DefaultUnknownLib
      (newImportManager NamespaceService) cu ast).Namespace
      = some (runCalls cu.importReplace (tentativeCalls cu)) := by
    rw [init_Namespace, hcalls]
  refine ⟨hns, ?_, ?_⟩
  · intro hdeep hval
    rw [hns]
    unfold tentativeCalls CodeUtils.Features
    rw [hdeep, hval]
    rfl
  · have hres := ResolveImports_afterInit DefaultThriftLib DefaultUnknownLib cu ast []
    have hmap : initImports DefaultThriftLib DefaultUnknownLib cu ast [] = [] := by
      unfold initImports
      apply iteratePairs_skip_all
      intro e he
      rw [flag_afterInit]
      obtain ⟨⟨k, v⟩, hkv, rfl⟩ := List.mem_map.1 he
      have hcall : (v, k) ∈ (tentativeCalls cu).map (redirectCall cu.importReplace) := by
        have := foldl_register_inv
          ((initCalls DefaultThriftLib DefaultUnknownLib cu ast).map
            (redirectCall cu.importReplace)) []
          ((tentativeCalls cu).map (redirectCall cu.importReplace))
          (by simp) (by rw [hcalls]; exact fun c hc => hc) (k, v) hkv
        exact this
      obtain ⟨c, hc, hcv⟩ := List.mem_map.1 hcall
      have hname : v = c.1 := (congrArg Prod.fst hcv).symm
      have hten : c.1 ∈ tentativeNames := by
        have hmem := tentativeCalls_subset DefaultThriftLib DefaultUnknownLib cu c hc
        simp only [allCalls, List.drop, List.mem_cons, List.not_mem_nil, or_false] at hmem
        rcases hmem with rfl | rfl | rfl <;> simp [tentativeNames]
      simp [hname, hten]
    rw [hmap] at hres
    exact hres

theorem empty_document_witness :
    (importManager.init sampleThriftLib sampleUnknownLib (newImportManager NamespaceService)
        { features := deepEqualOnly, importReplace := fmtToStrings } emptyDocument).Namespace
      = some (runCalls fmtToStrings (tentativeCalls
          { features := deepEqualOnly, importReplace := fmtToStrings }))
    ∧ (importManager.init sampleThriftLib sampleUnknownLib (newImportManager NamespaceService)
        { features := deepEqualOnly, importReplace := fmtToStrings }
        emptyDocument).ResolveImports NamespaceService.impl
      = some ([], none) :=
  ⟨(empty_document sampleThriftLib sampleUnknownLib
      { features := deepEqualOnly, importReplace := fmtToStrings } emptyDocument rfl rfl rfl).1,
   (empty_document sampleThriftLib sampleUnknownLib
      { features := deepEqualOnly, importReplace := fmtToStrings } emptyDocument rfl rfl rfl).2.2⟩

/-- C16 fails as stated: on the document with no declaration, with `GenDeepEqual`
set and an empty replacement table, `init` makes the calls
`ns.Add("strings", "strings")` and `ns.Add("bytes", "bytes")`, and the namespace
holds the two registrations afterwards. -/
theorem empty_document_counterexample :
    initCalls sampleThriftLib sampleUnknownLib
        { features := deepEqualOnly, importReplace := [] } emptyDocument
      = [("strings", "strings"), ("bytes", "bytes")]
    ∧ (importManager.init sampleThriftLib sampleUnknownLib (newImportManager NamespaceService)
        { features := deepEqualOnly, importReplace := [] } emptyDocument).Namespace.map
          (fun h => NamespaceService.impl.pairs h.Namespace)
      = some [("strings", "strings"), ("bytes", "bytes")] := by
  refine ⟨by decide, by decide⟩



/-! ## Deduplication -/

theorem NamespaceService.add_add (s : NamespaceService) (n1 n2 id : String) :
    (NamespaceService.Add (NamespaceService.Add s n1 id).2 n2 id).1
      = (NamespaceService.Add s n1 id).1 := by
  have hl := NamespaceService.lookup_add_self s n1 id
  generalize NamespaceService.Add s n1 id = r at hl
  unfold NamespaceService.Add
  rw [hl]

theorem GoMap.keys_store {β : Type} (m : GoMap β) (k : String) (v : β) (p : String) :
    p ∈ (GoMap.store m k v).map Prod.fst ↔ p = k ∨ p ∈ m.map Prod.fst := by
  induction m with
  | nil => simp [GoMap.store]
  | cons e t ih =>
    obtain ⟨k', v'⟩ := e
    by_cases hk : k' = k
    · subst hk
      simp [GoMap.store]
    · simp only [GoMap.store, hk, if_false, List.map_cons, List.mem_cons, ih]
      tauto

theorem GoMap.nodup_store {β : Type} (m : GoMap β) (k : String) (v : β)
    (hd : (m.map Prod.fst).Nodup) : ((GoMap.store m k v).map Prod.fst).Nodup := by
  induction m with
  | nil => simp [GoMap.store]
  | cons e t ih =>
    obtain ⟨k', v'⟩ := e
    simp only [List.map_cons, List.nodup_cons] at hd
    by_cases hk : k' = k
    · subst hk
      simpa [GoMap.store] using hd
    · simp only [GoMap.store, hk, if_false, List.map_cons, List.nodup_cons]
      refine ⟨?_, ih hd.2⟩
      rw [GoMap.keys_store]
      rintro (h | h)
      · exact hk h
      · exact hd.1 h

theorem nodup_keys_resolve (lib : GoMap Bool) (l : List (String × String)) (m : GoMap String)
    (hd : (m.map Prod.fst).Nodup) :
    ((iteratePairs l (resolveStep lib) m).map Prod.fst).Nodup := by
  rw [iteratePairs_resolveStep]
  induction l generalizing m with
  | nil => exact hd
  | cons e t ih =>
    rw [List.foldl_cons]
    apply ih
    rw [resolveStep_fst]
    split_ifs
    · exact hd
    · exact GoMap.nodup_store _ _ _ hd

/-- C17 (deduplication): when the wrapped namespace returns the already-assigned
name for a key that is added again, for two keys `K1`, `K2` with
`get K1 = get K2`, `idHijack.Add n1 K1` followed by `idHijack.Add n2 K2` returns the
same alias twice, `idHijack.Get K1 = idHijack.Get K2` afterwards, and the map that
`ResolveImports` returns has at most one entry for a path, that of the two keys
included. -/
theorem deduplication {σ : Type} (N : Golang.Namespace σ) (h : idHijack σ)
    (n1 n2 K1 K2 : String) (lib : GoMap Bool) (hkey : h.get K1 = h.get K2)
    (law : ∀ (s : σ) (a b id : String), (N.Add (N.Add s a id).2 b id).1 = (N.Add s a id).1) :
    (idHijack.Add N (idHijack.Add N h n1 K1).2 n2 K2).1 = (idHijack.Add N h n1 K1).1
    ∧ idHijack.Get N (idHijack.Add N (idHijack.Add N h n1 K1).2 n2 K2).2 K1
        = idHijack.Get N (idHijack.Add N (idHijack.Add N h n1 K1).2 n2 K2).2 K2
    ∧ ∃ m, importManager.ResolveImports N
          { Namespace := some (idHijack.Add N (idHijack.Add N h n1 K1).2 n2 K2).2
            libNotUsed := lib } = some (m, none)
        ∧ ∀ p, (m.map Prod.fst).count p ≤ 1 := by
  refine ⟨?_, ?_, _, ResolveImports_eq N _ _ rfl, ?_⟩
  · simp only [idHijack.Add, idHijack.get] at hkey ⊢
    rw [← hkey]
    exact law _ _ _ _
  · simp only [idHijack.Get, idHijack.Add, idHijack.get] at hkey ⊢
    rw [hkey]
  · intro p
    exact List.nodup_iff_count_le_one.1 (nodup_keys_resolve _ _ [] (by simp)) p

theorem deduplication_witness :
    (idHijack.Add NamespaceService.impl
        (idHijack.Add NamespaceService.impl
          { Namespace := NewNamespace zeroIndexRename
            replacement := [(sampleThriftLib, "example.com/fork/thrift")] }
          "thrift" sampleThriftLib).2 "fork" "example.com/fork/thrift").1
      = (idHijack.Add NamespaceService.impl
          { Namespace := NewNamespace zeroIndexRename
            replacement := [(sampleThriftLib, "example.com/fork/thrift")] }
          "thrift" sampleThriftLib).1
    ∧ (idHijack.Add NamespaceService.impl
          { Namespace := NewNamespace zeroIndexRename
            replacement := [(sampleThriftLib, "example.com/fork/thrift")] }
          "thrift" sampleThriftLib).1 = "thrift" :=
  ⟨(deduplication NamespaceService.impl
      { Namespace := NewNamespace zeroIndexRename
        replacement := [(sampleThriftLib, "example.com/fork/thrift")] }
      "thrift" "fork" sampleThriftLib "example.com/fork/thrift"
      (newImportManager NamespaceService).libNotUsed (by decide)
      NamespaceService.add_add).1, by decide⟩


/-! ## `ResolveImports` as a step on the manager -/

theorem iteratePairs_resolveStepOn {σ : Type} (im : importManager σ)
    (l : List (String × String)) (m : GoMap String) :
    iteratePairs l resolveStepOn (im, m) = (im, iteratePairs l (resolveStep im.libNotUsed) m) := by
  induction l generalizing m with
  | nil => rfl
  | cons e t ih =>
    obtain ⟨a, p⟩ := e
    have hcont : (resolveStep im.libNotUsed a p m).2 = true := by
      unfold resolveStep; split_ifs <;> rfl
    cases hr : resolveStep im.libNotUsed a p m with
    | mk m' b =>
      rw [hr] at hcont
      simp only at hcont
      subst hcont
      simp only [iteratePairs, resolveStepOn, hr]
      exact ih m'

theorem runResolveImports_eq {σ : Type} (N : Golang.Namespace σ) (im : importManager σ)
    (h : idHijack σ) (hns : im.Namespace = some h) :
    im.runResolveImports N
      = some (im, (iteratePairs (N.pairs h.Namespace) (resolveStep im.libNotUsed) [], none)) := by
  simp [importManager.runResolveImports, hns, idHijack.Iterate, Namespace.Iterate,
    iteratePairs_resolveStepOn]

/-- C20 (late confirmations apply): in a manager whose namespace is set and holds
the entry `(k, path of k)`, with `k` still in `libNotUsed`, the sequence
`ResolveImports`, `UseStdLibrary k`, `ResolveImports` returns a first map with no
entry for the path of `k` and a second map with one, and the second call leaves
the receiver and returns the map that `ResolveImports` gives after `UseStdLibrary k`
alone. The ids of the namespace are pairwise distinct, as the keys of a map are. -/
theorem late_confirmation_applies {σ : Type} (N : Golang.Namespace σ) (im : importManager σ)
    (h : idHijack σ) (k : String)
    (hns : im.Namespace = some h) (hd : N.DistinctIds h.Namespace)
    (hmem : (k, h.get k) ∈ N.pairs h.Namespace)
    (hflag : GoMap.flag im.libNotUsed k = true) :
    ∃ im1 m1 im2 m2,
      im.runResolveImports N = some (im1, (m1, none))
      ∧ (im1.UseStdLibrary k).runResolveImports N = some (im2, (m2, none))
      ∧ GoMap.lookup m1 (h.get k) = none
      ∧ GoMap.lookup m2 (h.get k) ≠ none
      ∧ (im.UseStdLibrary k).runResolveImports N = some (im2, (m2, none)) := by
  have hns' : (im.UseStdLibrary k).Namespace = some h := hns
  refine ⟨im, _, im.UseStdLibrary k, _, runResolveImports_eq N im h hns,
    runResolveImports_eq N _ h hns', ?_, ?_, runResolveImports_eq N _ h hns'⟩
  · rw [lookup_resolve_of_mem _ _ k _ hd hmem, if_pos hflag]
  · rw [lookup_resolve_of_mem _ _ k _ hd hmem]
    have hoff : GoMap.flag (im.UseStdLibrary k).libNotUsed k = false := by
      simp [importManager.UseStdLibrary, GoMap.flag_delete]
    simp [hoff]

theorem late_confirmation_applies_witness :
    ∃ im1 m1 im2 m2,
      (afterInit sampleThriftLib sampleUnknownLib
          { features := deepEqualOnly, importReplace := [] } oneStruct []).runResolveImports
            NamespaceService.impl = some (im1, (m1, none))
      ∧ (im1.UseStdLibrary "strings").runResolveImports NamespaceService.impl
          = some (im2, (m2, none))
      ∧ GoMap.lookup m1 "strings" = none
      ∧ GoMap.lookup m2 "strings" ≠ none
      ∧ ((afterInit sampleThriftLib sampleUnknownLib
          { features := deepEqualOnly, importReplace := [] } oneStruct []).UseStdLibrary
            "strings").runResolveImports NamespaceService.impl = some (im2, (m2, none)) :=
  late_confirmation_applies NamespaceService.impl
    (afterInit sampleThriftLib sampleUnknownLib
      { features := deepEqualOnly, importReplace := [] } oneStruct [])
    { Namespace := { rename := zeroIndexRename,
                     ids := initIds sampleThriftLib sampleUnknownLib
                       { features := deepEqualOnly, importReplace := [] } oneStruct }
      replacement := [] }
    "strings"
    (afterInit_Namespace sampleThriftLib sampleUnknownLib
      { features := deepEqualOnly, importReplace := [] } oneStruct [])
    (init_distinctIds sampleThriftLib sampleUnknownLib
      { features := deepEqualOnly, importReplace := [] } oneStruct)
    (by decide) (by decide)


/-! ## Suppression by assigned name -/

theorem flag_newImportManager (σ : Type) (a : String) :
    GoMap.flag (newImportManager σ).libNotUsed a = decide (a ∈ tentativeNames) := by
  simp only [newImportManager, GoMap.flag, GoMap.lookup, tentativeNames, List.lookup]
  by_cases h1 : a = "strings"
  · subst h1; rfl
  · by_cases h2 : a = "bytes"
    · subst h2; rfl
    · by_cases h3 : a = "reflect"
      · subst h3; rfl
      · have b1 : (a == "strings") = false := by simpa using h1
        have b2 : (a == "bytes") = false := by simpa using h2
        have b3 : (a == "reflect") = false := by simpa using h3
        simp [b1, b2, b3, h1, h2, h3]

/-- C19 (suppression is decided by assigned name): in a manager whose namespace is
set, the map that `ResolveImports` returns has the entry `p ↦ v` exactly when the
namespace holds an entry `(a, p)` with `libNotUsed[a]` false, and then `v` is `""`
when `a = p` or `p` ends with `"/" ++ a`, and `a` otherwise. A new manager holds
exactly `"strings"`, `"bytes"` and `"reflect"` in `libNotUsed`, whatever the feature
flags, so an entry of the namespace whose name is one of the three is withheld
exactly as long as `UseStdLibrary` has not been called with that name, whatever its
key. The ids of the namespace are pairwise distinct, as the keys of a map are. -/
theorem suppression_by_name {σ : Type} (N : Golang.Namespace σ) (im : importManager σ)
    (h : idHijack σ) (hns : im.Namespace = some h) (hd : N.DistinctIds h.Namespace) :
    (∃ m, im.ResolveImports N = some (m, none)
      ∧ ∀ p v, GoMap.lookup m p = some v ↔
          ∃ a, (a, p) ∈ N.pairs h.Namespace ∧ GoMap.flag im.libNotUsed a = false
            ∧ v = if a = p ∨ strings.HasSuffix p ("/" ++ a) = true then "" else a)
    ∧ (∀ a, GoMap.flag (newImportManager σ).libNotUsed a = decide (a ∈ tentativeNames))
    ∧ ∀ (libs : List String) (a p : String), (a, p) ∈ N.pairs h.Namespace →
        a ∈ tentativeNames →
        ∃ m, (useAll (managerOf h) libs).ResolveImports N = some (m, none)
          ∧ (GoMap.lookup m p = none ↔ a ∉ libs) := by
  refine ⟨⟨_, ResolveImports_eq N im h hns, ?_⟩, flag_newImportManager σ, ?_⟩
  · intro p v
    constructor
    · intro hv
      by_cases hex : ∃ a, (a, p) ∈ N.pairs h.Namespace
      · obtain ⟨a, ha⟩ := hex
        rw [lookup_resolve_of_mem _ _ a p hd ha] at hv
        by_cases hf : GoMap.flag im.libNotUsed a = true
        · rw [if_pos hf] at hv; cases hv
        · rw [if_neg hf] at hv
          refine ⟨a, ha, by simpa using hf, ?_⟩
          exact (Option.some.inj hv).symm
      · rw [lookup_resolve_of_not_mem _ _ p (fun a ha => hex ⟨a, ha⟩)] at hv
        cases hv
    · rintro ⟨a, ha, hf, rfl⟩
      rw [lookup_resolve_of_mem _ _ a p hd ha, hf]
      rfl
  · intro libs a p ha hten
    have hns' : (useAll (managerOf h) libs).Namespace = some h := by
      rw [useAll_Namespace]; rfl
    refine ⟨_, ResolveImports_eq N _ h hns', ?_⟩
    rw [lookup_resolve_of_mem _ _ a p hd ha, flag_useAll]
    have hnew : GoMap.flag (managerOf h).libNotUsed a = true := by
      show GoMap.flag (newImportManager σ).libNotUsed a = true
      rw [flag_newImportManager]
      simpa using hten
    rw [hnew]
    by_cases hl : a ∈ libs <;> simp [hl]

theorem suppression_by_name_witness :
    ∃ m, (useAll (managerOf (runCalls stringsToBytes [("strings", "strings")]))
            ["bytes"]).ResolveImports NamespaceService.impl = some (m, none)
      ∧ (GoMap.lookup m "bytes" = none ↔ "strings" ∉ ["bytes"]) :=
  (suppression_by_name NamespaceService.impl
    (managerOf (runCalls stringsToBytes [("strings", "strings")]))
    (runCalls stringsToBytes [("strings", "strings")]) rfl
    (by unfold Namespace.DistinctIds; decide)).2.2
    ["bytes"] "strings" "bytes" (by decide) (by decide)



/-! ## Independence of the visiting order -/

theorem runResolveImportsIn_eq {σ : Type} (im : importManager σ) (h : idHijack σ)
    (order : List (String × String)) (hns : im.Namespace = some h) :
    im.runResolveImportsIn order
      = some (im, (iteratePairs order (resolveStep im.libNotUsed) [], none)) := by
  simp [importManager.runResolveImportsIn, hns, iteratePairs_resolveStepOn]

theorem GoMap.lookup_of_mem_nodup {β : Type} (m : GoMap β) (k : String) (v : β)
    (hd : (m.map Prod.fst).Nodup) (hmem : (k, v) ∈ m) : GoMap.lookup m k = some v := by
  induction m with
  | nil => cases hmem
  | cons e t ih =>
    obtain ⟨k', v'⟩ := e
    simp only [List.map_cons, List.nodup_cons] at hd
    simp only [GoMap.lookup] at ih ⊢
    rcases List.mem_cons.1 hmem with heq | htail
    · cases heq
      simp
    · have hne : k ≠ k' := by
        rintro rfl
        exact hd.1 (List.mem_map_of_mem Prod.fst htail)
      have hb : (k == k') = false := by simpa using hne
      simp only [List.lookup, hb]
      exact ih hd.2 htail

theorem lookup_resolve_perm (lib : GoMap Bool) (l o : List (String × String))
    (hd : (l.map Prod.snd).Nodup) (hperm : o.Perm l) (p : String) :
    GoMap.lookup (iteratePairs o (resolveStep lib) []) p
      = GoMap.lookup (iteratePairs l (resolveStep lib) []) p := by
  have hdo : (o.map Prod.snd).Nodup := (hperm.map Prod.snd).nodup_iff.2 hd
  by_cases hex : ∃ a, (a, p) ∈ l
  · obtain ⟨a, ha⟩ := hex
    rw [lookup_resolve_of_mem lib l a p hd ha,
      lookup_resolve_of_mem lib o a p hdo (hperm.mem_iff.2 ha)]
  · rw [lookup_resolve_of_not_mem lib l p (fun a ha => hex ⟨a, ha⟩),
      lookup_resolve_of_not_mem lib o p (fun a ha => hex ⟨a, hperm.mem_iff.1 ha⟩)]

theorem GoMap.perm_of_lookup_eq {β : Type} (m1 m2 : GoMap β)
    (hd1 : (m1.map Prod.fst).Nodup) (hd2 : (m2.map Prod.fst).Nodup)
    (hl : ∀ p, GoMap.lookup m1 p = GoMap.lookup m2 p) : m1.Perm m2 := by
  rw [List.perm_ext_iff_of_nodup (List.Nodup.of_map _ hd1) (List.Nodup.of_map _ hd2)]
  rintro ⟨k, v⟩
  constructor
  · intro hmem
    apply GoMap.mem_of_lookup_eq_some
    rw [← hl]
    exact GoMap.lookup_of_mem_nodup m1 k v hd1 hmem
  · intro hmem
    apply GoMap.mem_of_lookup_eq_some
    rw [hl]
    exact GoMap.lookup_of_mem_nodup m2 k v hd2 hmem

/-- C18 (alias determinism): in a manager whose namespace is set, whatever the
orders `o1` and `o2` in which `Iterate` visits the entries of the namespace during
a first and a second call, `ResolveImports` leaves the receiver as it was,
`libNotUsed` and namespace included, and returns a nil error, and the two maps it
returns are equal as maps: they hold the same entries and give the same value at
every path. The call in the order `pairs` is `ResolveImports` itself. The ids of the
namespace are pairwise distinct, as the keys of a map are. -/
theorem ResolveImports_deterministic {σ : Type} (N : Golang.Namespace σ)
    (im : importManager σ) (h : idHijack σ) (o1 o2 : List (String × String))
    (hns : im.Namespace = some h) (hd : N.DistinctIds h.Namespace)
    (h1 : N.VisitOrder h.Namespace o1) (h2 : N.VisitOrder h.Namespace o2) :
    ∃ m m1 m2,
      im.ResolveImports N = some (m, none)
      ∧ im.runResolveImports N = im.runResolveImportsIn (N.pairs h.Namespace)
      ∧ im.runResolveImportsIn (N.pairs h.Namespace) = some (im, (m, none))
      ∧ im.runResolveImportsIn o1 = some (im, (m1, none))
      ∧ (im.runResolveImportsIn o1).bind (fun r => r.1.runResolveImportsIn o2)
          = some (im, (m2, none))
      ∧ m1.Perm m2 ∧ (∀ p, GoMap.lookup m1 p = GoMap.lookup m2 p)
      ∧ m.Perm m1 ∧ (∀ p, GoMap.lookup m p = GoMap.lookup m1 p) := by
  have hl1 := lookup_resolve_perm im.libNotUsed _ o1 hd h1
  have hl2 := lookup_resolve_perm im.libNotUsed _ o2 hd h2
  have hnd : ∀ o, ((iteratePairs o (resolveStep im.libNotUsed) []).map Prod.fst).Nodup :=
    fun o => nodup_keys_resolve im.libNotUsed o [] (by simp)
  refine ⟨iteratePairs (N.pairs h.Namespace) (resolveStep im.libNotUsed) [],
    iteratePairs o1 (resolveStep im.libNotUsed) [],
    iteratePairs o2 (resolveStep im.libNotUsed) [],
    ResolveImports_eq N im h hns, ?_, runResolveImportsIn_eq im h _ hns,
    runResolveImportsIn_eq im h o1 hns, ?_, ?_, ?_, ?_, ?_⟩
  · rw [runResolveImports_eq N im h hns, runResolveImportsIn_eq im h _ hns]
  · rw [runResolveImportsIn_eq im h o1 hns]
    exact runResolveImportsIn_eq im h o2 hns
  · exact GoMap.perm_of_lookup_eq _ _ (hnd o1) (hnd o2) (fun p => (hl1 p).trans (hl2 p).symm)
  · exact fun p => (hl1 p).trans (hl2 p).symm
  · exact GoMap.perm_of_lookup_eq _ _ (hnd _) (hnd o1) (fun p => (hl1 p).symm)
  · exact fun p => (hl1 p).symm


theorem ResolveImports_deterministic_witness :
    ∃ m m1 m2,
      (afterInit sampleThriftLib sampleUnknownLib
          { features := deepEqualOnly, importReplace := [] } oneStruct
          ["strings"]).ResolveImports NamespaceService.impl = some (m, none)
      ∧ (afterInit sampleThriftLib sampleUnknownLib
          { features := deepEqualOnly, importReplace := [] } oneStruct
          ["strings"]).runResolveImports NamespaceService.impl
        = (afterInit sampleThriftLib sampleUnknownLib
          { features := deepEqualOnly, importReplace := [] } oneStruct
          ["strings"]).runResolveImportsIn
            (NamespaceService.pairs
              { rename := zeroIndexRename
                ids := initIds sampleThriftLib sampleUnknownLib
                  { features := deepEqualOnly, importReplace := [] } oneStruct })
      ∧ (afterInit sampleThriftLib sampleUnknownLib
          { features := deepEqualOnly, importReplace := [] } oneStruct
          ["strings"]).runResolveImportsIn
            (NamespaceService.pairs
              { rename := zeroIndexRename
                ids := initIds sampleThriftLib sampleUnknownLib
                  { features := deepEqualOnly, importReplace := [] } oneStruct })
        = some (afterInit sampleThriftLib sampleUnknownLib
          { features := deepEqualOnly, importReplace := [] } oneStruct ["strings"], (m, none))
      ∧ (afterInit sampleThriftLib sampleUnknownLib
          { features := deepEqualOnly, importReplace := [] } oneStruct
          ["strings"]).runResolveImportsIn
            [("strings", "strings"), ("thrift", sampleThriftLib), ("bytes", "bytes"),
             ("fmt", "fmt")]
        = some (afterInit sampleThriftLib sampleUnknownLib
          { features := deepEqualOnly, importReplace := [] } oneStruct ["strings"], (m1, none))
      ∧ ((afterInit sampleThriftLib sampleUnknownLib
          { features := deepEqualOnly, importReplace := [] } oneStruct
          ["strings"]).runResolveImportsIn
            [("strings", "strings"), ("thrift", sampleThriftLib), ("bytes", "bytes"),
             ("fmt", "fmt")]).bind
          (fun r => r.1.runResolveImportsIn
            [("bytes", "bytes"), ("fmt", "fmt"), ("strings", "strings"),
             ("thrift", sampleThriftLib)])
        = some (afterInit sampleThriftLib sampleUnknownLib
          { features := deepEqualOnly, importReplace := [] } oneStruct ["strings"], (m2, none))
      ∧ m1.Perm m2 ∧ (∀ p, GoMap.lookup m1 p = GoMap.lookup m2 p)
      ∧ m.Perm m1 ∧ (∀ p, GoMap.lookup m p = GoMap.lookup m1 p) :=
  ResolveImports_deterministic NamespaceService.impl
    (afterInit sampleThriftLib sampleUnknownLib
      { features := deepEqualOnly, importReplace := [] } oneStruct ["strings"])
    { Namespace := { rename := zeroIndexRename,
                     ids := initIds sampleThriftLib sampleUnknownLib
                       { features := deepEqualOnly, importReplace := [] } oneStruct }
      replacement := [] }
    [("strings", "strings"), ("thrift", sampleThriftLib), ("bytes", "bytes"), ("fmt", "fmt")]
    [("bytes", "bytes"), ("fmt", "fmt"), ("strings", "strings"), ("thrift", sampleThriftLib)]
    (afterInit_Namespace sampleThriftLib sampleUnknownLib
      { features := deepEqualOnly, importReplace := [] } oneStruct ["strings"])
    (init_distinctIds sampleThriftLib sampleUnknownLib
      { features := deepEqualOnly, importReplace := [] } oneStruct)
    (by unfold Namespace.VisitOrder; decide) (by unfold Namespace.VisitOrder; decide)

/-- The two visiting orders of the example above give lists that differ as lists
and agree as maps. -/
theorem visiting_orders_example :
    iteratePairs
        [("strings", "strings"), ("thrift", sampleThriftLib), ("bytes", "bytes"), ("fmt", "fmt")]
        (resolveStep [("bytes", true), ("reflect", true)]) []
      = [("strings", ""), (sampleThriftLib, ""), ("fmt", "")]
    ∧ iteratePairs
        [("bytes", "bytes"), ("fmt", "fmt"), ("strings", "strings"), ("thrift", sampleThriftLib)]
        (resolveStep [("bytes", true), ("reflect", true)]) []
      = [("fmt", ""), ("strings", ""), (sampleThriftLib, "")] := by
  refine ⟨by decide, by decide⟩

end Golang
